import Mathlib

/-!
# OSCMessage: wire encoder and streaming decoder

A shallow embedding of `OSCMessage.cpp`: the message aggregate, its getters and
type tests, its size accounting (`bytes`), its serializer (`send`), the
byte-driven decoder (`decode`, `decodeData`), `empty`, and the matching entry
points (`match`, `fullMatch`, `dispatch`, `route`), followed by theorems about
them.

Conventions of the embedding.

* A byte (`uint8_t`, `char`) is a natural number; the casts of the source are
  written as `% 256`.
* The array `data` together with its length `dataCount` is a list; likewise the
  first `incomingBufferSize` bytes of `incomingBuffer` are a list and
  `incomingBufferSize` is its length. Bytes of the allocation past
  `incomingBufferSize` are never read by the source.
* Every allocation (`malloc`, `realloc`, `new`) succeeds.
* The counters of type `int` are natural numbers: positions are non-negative
  and sizes stay in the range of `int`.
* A method that can modify the object returns the new object next to its
  result.
* `bytes`, `send` on a message without error, `match` and `fullMatch` read the
  address. On a null address the source has no defined result; the embedding
  returns a placeholder there, and the theorems about these methods are stated
  for an address that is present.
* The headers are absent. What they declare is modelled from the
  specification; the matcher `osc_match` is a parameter of `match`,
  `fullMatch`, `dispatch` and `route`, and `decodeWith` takes the constructor
  of a value from its type tag as a parameter.
-/

namespace OSC

/-! ## Declarations of the headers -/

/-- Modelled from the spec: the error codes (`OSCErrorCode`, declared in the
absent `OSCData.h`): `Ok`, `InvalidMessage`, `IndexOutOfBounds` and
`AllocationFailed`, under the names the source uses. -/
inductive OSCErrorCode
  | OSC_OK
  | INVALID_OSC
  | ALLOCFAILED
  | INDEX_OUT_OF_BOUNDS
  deriving DecidableEq, Repr

/-- Modelled from the spec: the states of the streaming decoder (an enum of the
absent `OSCMessage.h`), under the names the source uses. -/
inductive DecodeState
  | STANDBY
  | ADDRESS
  | ADDRESS_PADDING
  | TYPES
  | TYPES_PADDING
  | DATA
  | DATA_PADDING
  deriving DecidableEq, Repr

/-- Modelled from the spec: the union `data` of a typed value (declared in the
absent `OSCData.h`). `word32` is the bit pattern shared by `data.i` and
`data.f`, `word64` the one shared by `data.d` and `data.l`, `block` the memory
`data.s` / `data.b` points to, `empty` a value without payload. -/
inductive Payload
  | word32 (bits : Nat)
  | word64 (bits : Nat)
  | block (mem : List Nat)
  | empty
  deriving DecidableEq, Repr

/-- The member `data.i` read as `uint32_t`. -/
def Payload.asWord32 : Payload → Nat
  | .word32 bits => bits % 4294967296
  | _ => 0

/-- The members `data.d` / `data.l` read as a 64-bit pattern. -/
def Payload.asWord64 : Payload → Nat
  | .word64 bits => bits % 18446744073709551616
  | _ => 0

/-- The memory behind `data.b` (also `data.s`). -/
def Payload.asBlock : Payload → List Nat
  | .block mem => mem
  | _ => []

/-- Modelled from the spec: a typed value (`OSCData`, absent from the sources):
its type tag, its payload, its wire length before padding and its own error
code. -/
structure OSCData where
  type : Nat
  bytes : Nat
  error : OSCErrorCode
  data : Payload
  deriving DecidableEq, Repr

/-- Modelled from the spec: the value built from a type tag alone
(`OSCData(char)`): no payload, error "incomplete". -/
def OSCData.ofType (t : Nat) : OSCData :=
  { type := t, bytes := 0, error := .INVALID_OSC, data := .empty }

/-- Modelled from the spec: the value built from an `int32_t`, kept as its
32-bit pattern; type `i`, 4 bytes. -/
def OSCData.ofInt (bits : Nat) : OSCData :=
  { type := 105, bytes := 4, error := .OSC_OK, data := .word32 bits }

/-- Modelled from the spec: the value built from a `float`, kept as its 32-bit
pattern; type `f`, 4 bytes. -/
def OSCData.ofFloat (bits : Nat) : OSCData :=
  { type := 102, bytes := 4, error := .OSC_OK, data := .word32 bits }

/-- Modelled from the spec: the value built from a `double`, kept as its 64-bit
pattern; type `d`, 8 bytes. -/
def OSCData.ofDouble (bits : Nat) : OSCData :=
  { type := 100, bytes := 8, error := .OSC_OK, data := .word64 bits }

/-- Modelled from the spec: the value built from a `uint64_t` time tag; type
`t`, 8 bytes. -/
def OSCData.ofTime (bits : Nat) : OSCData :=
  { type := 116, bytes := 8, error := .OSC_OK, data := .word64 bits }

/-- The characters of the C string that starts a memory block: everything
before the first zero byte (`strlen`, `strcpy`). -/
def cstr (mem : List Nat) : List Nat :=
  mem.takeWhile (fun c => c != 0)

/-- Modelled from the spec: the value built from a C string; type `s`, the
owned copy holds the characters and the terminator, `len + 1` bytes. -/
def OSCData.ofString (mem : List Nat) : OSCData :=
  { type := 115, bytes := (cstr mem).length + 1, error := .OSC_OK,
    data := .block (cstr mem ++ [0]) }

/-- Modelled from the spec: the value built from `len` raw bytes; type `b`,
payload the raw blob bytes, byte length `len`. -/
def OSCData.ofBlob (mem : List Nat) (len : Nat) : OSCData :=
  { type := 98, bytes := len, error := .OSC_OK, data := .block (mem.take len) }

/-- Modelled from the spec: the value built from a type tag alone when the
booleans are completed implicitly (sections 4.2 and 9): `T` and `F` carry no
payload and are complete, every other tag gives an incomplete value. -/
def OSCData.ofTag (t : Nat) : OSCData :=
  if t = 84 ∨ t = 70 then { type := t, bytes := 0, error := .OSC_OK, data := .empty }
  else OSCData.ofType t

/-- Modelled from the spec: `OSCData::getInt` (absent from the sources) returns
the stored value when the type is `i`, the 32-bit pattern read as a two's
complement `int32_t`, and a zero default otherwise. -/
def OSCData.getInt (d : OSCData) : Int :=
  if d.type = 105 then
    if d.data.asWord32 < 2147483648 then (d.data.asWord32 : Int)
    else (d.data.asWord32 : Int) - 4294967296
  else 0

/-- Modelled from the spec: `OSCData::getTime` (absent from the sources) returns
the stored `uint64_t` when the type is `t`, and a zero default otherwise. -/
def OSCData.getTime (d : OSCData) : Nat :=
  if d.type = 116 then d.data.asWord64 else 0

/-- The fields of an `OSCMessage`. `address = none` is the null pointer;
`incomingBufferAlloc` is the size of the allocation behind `incomingBuffer`
(what the last `realloc` asked for). -/
structure OSCMessage where
  address : Option (List Nat)
  data : List OSCData
  error : OSCErrorCode
  decodeState : DecodeState
  incomingBuffer : List Nat
  incomingBufferFree : Nat
  incomingBufferAlloc : Nat
  deriving DecidableEq, Repr

/-- The field `dataCount`. -/
def OSCMessage.dataCount (m : OSCMessage) : Nat :=
  m.data.length

/-- The field `incomingBufferSize`. -/
def OSCMessage.incomingBufferSize (m : OSCMessage) : Nat :=
  m.incomingBuffer.length

/-! ## Incoming buffer -/

/-- `OSCMessage::clearIncomingBuffer`. -/
def clearIncomingBuffer (m : OSCMessage) : OSCMessage :=
  { m with incomingBuffer := [], incomingBufferAlloc := 16, incomingBufferFree := 16 }

/-- `OSCMessage::addToIncomingBuffer`. -/
def addToIncomingBuffer (m : OSCMessage) (incomingByte : Nat) : OSCMessage :=
  if m.incomingBufferFree > 0 then
    { m with incomingBuffer := m.incomingBuffer ++ [incomingByte],
             incomingBufferFree := m.incomingBufferFree - 1 }
  else
    { m with incomingBuffer := m.incomingBuffer ++ [incomingByte],
             incomingBufferAlloc := m.incomingBufferSize + 16,
             incomingBufferFree := 16 - 1 }

/-! ## Construction -/

/-- `OSCMessage::setupMessage`. -/
def setupMessage : OSCMessage :=
  { clearIncomingBuffer
      { address := none, data := [], error := .OSC_OK, decodeState := .STANDBY,
        incomingBuffer := [], incomingBufferFree := 0, incomingBufferAlloc := 0 }
    with decodeState := .STANDBY }

/-- `OSCMessage::setAddress`: the message owns a copy of the C string. -/
def setAddress (m : OSCMessage) (mem : List Nat) : OSCMessage :=
  { m with address := some (cstr mem) }

/-- `OSCMessage::OSCMessage()`: the placeholder, invalid until decoded into. -/
def OSCMessage.new : OSCMessage :=
  { setupMessage with error := .INVALID_OSC }

/-- `OSCMessage::OSCMessage(const char *)`. -/
def OSCMessage.withAddress (mem : List Nat) : OSCMessage :=
  setAddress setupMessage mem

/-- Modelled from the spec: `add` (a template of the absent `OSCMessage.h`)
appends a typed value to the message. -/
def add (m : OSCMessage) (d : OSCData) : OSCMessage :=
  { m with data := m.data ++ [d] }

/-- Modelled from the spec: `set` (a template of the absent `OSCMessage.h`)
completes the value at `position` with a fully formed payload; a pointer taken
to that value before the call sees the completed value afterwards. -/
def set (m : OSCMessage) (position : Nat) (d : OSCData) : OSCMessage :=
  { m with data := m.data.set position d }

/-! ## Getting data, errors -/

/-- `OSCMessage::getOSCData`. -/
def getOSCData (m : OSCMessage) (position : Nat) : Option OSCData × OSCMessage :=
  if position < m.dataCount then
    (m.data[position]?, m)
  else
    (none, { m with error := .INDEX_OUT_OF_BOUNDS })

/-- The loop of `hasError`: `k` iterations are left, `i` is the loop variable,
`retError` the flag so far. -/
def hasErrorLoop : Nat → Nat → Bool → OSCMessage → Bool × OSCMessage
  | 0, _, retError, m => (retError, m)
  | k + 1, i, retError, m =>
    match getOSCData m i with
    | (some datum, m1) => hasErrorLoop k (i + 1) (retError || (datum.error != .OSC_OK)) m1
    | (none, m1) => hasErrorLoop k (i + 1) retError m1

/-- `OSCMessage::hasError`. -/
def hasError (m : OSCMessage) : Bool × OSCMessage :=
  hasErrorLoop m.dataCount 0 (m.error != .OSC_OK) m

/-- `OSCMessage::getType`. -/
def getType (m : OSCMessage) (position : Nat) : Nat × OSCMessage :=
  match getOSCData m position with
  | (datum, m1) =>
    match hasError m1 with
    | (err, m2) =>
      if !err then
        match datum with
        | some d => (d.type, m2)
        | none => (0, m2)
      else (0, m2)

/-! ## Size -/

/-- The helper `padSize`. -/
def padSize (bytes : Nat) : Nat :=
  (bytes + 4) % 4

/-- `strlen(address)`. On a null address the call has no defined result in the
source (`bytes()` and `send()` dereference the pointer, lines 349 and 402); the
value 0 there is a placeholder, and a statement about `bytes()`, or about
`send()` on a message without error, holds for the source only where the
address is present. -/
def addressLength (m : OSCMessage) : Nat :=
  match m.address with
  | some a => a.length
  | none => 0

/-- The loop over the values in `bytes`. -/
def bytesLoop : Nat → Nat → Nat → OSCMessage → Nat × OSCMessage
  | 0, _, messageSize, m => (messageSize, m)
  | k + 1, i, messageSize, m =>
    match getOSCData m i with
    | (some datum, m1) => bytesLoop k (i + 1) (messageSize + datum.bytes + padSize datum.bytes) m1
    | (none, m1) => bytesLoop k (i + 1) messageSize m1

/-- `OSCMessage::bytes`. -/
def bytes (m : OSCMessage) : Nat × OSCMessage :=
  let messageSize := 0
  let addrLen := addressLength m + 1
  let messageSize := messageSize + addrLen
  let addrPad := padSize addrLen
  let messageSize := messageSize + addrPad
  let messageSize := messageSize + 1
  let messageSize := messageSize + m.dataCount
  let typePad := if padSize (m.dataCount + 1) = 0 then 4 else padSize (m.dataCount + 1)
  let messageSize := messageSize + typePad
  bytesLoop m.dataCount 0 messageSize m

/-! ## Sending -/

/-- The `w` bytes of `x`, most significant first: what `BigEndian` leaves in
memory for a `w`-byte number. -/
def bigEndianBytes : Nat → Nat → List Nat
  | 0, _ => []
  | w + 1, x => (x / 256 ^ w % 256) :: bigEndianBytes w x

/-- The number whose big-endian bytes are given (`memcpy` into a union, then
`BigEndian`). -/
def fromBigEndian (bs : List Nat) : Nat :=
  bs.foldl (fun acc b => acc * 256 + b) 0

/-- What `send` writes for the address: the string with its terminator. On a
null address the write has no defined result in the source; the empty list
there is a placeholder. -/
def addressBytes (m : OSCMessage) : List Nat :=
  match m.address with
  | some a => a ++ [0]
  | none => []

/-- The loop of `send` that writes the type characters; `out` is what the sink
has received so far. -/
def sendTypesLoop : Nat → Nat → List Nat → OSCMessage → List Nat × OSCMessage
  | 0, _, out, m => (out, m)
  | k + 1, i, out, m =>
    match getType m i with
    | (t, m1) => sendTypesLoop k (i + 1) (out ++ [t % 256]) m1

/-- The body of the data loop of `send`: the bytes written for one value. -/
def sendDatum (datum : OSCData) : List Nat :=
  if datum.type = 115 ∨ datum.type = 98 then
    datum.data.asBlock.take datum.bytes ++ List.replicate (padSize datum.bytes) 0
  else if datum.type = 100 then
    bigEndianBytes 8 datum.data.asWord64
  else if datum.type = 116 then
    bigEndianBytes 8 datum.data.asWord64
  else if datum.type = 84 ∨ datum.type = 70 then
    []
  else
    (bigEndianBytes 4 datum.data.asWord32).take datum.bytes

/-- The data loop of `send`. -/
def sendDataLoop : Nat → Nat → List Nat → OSCMessage → List Nat × OSCMessage
  | 0, _, out, m => (out, m)
  | k + 1, i, out, m =>
    match getOSCData m i with
    | (some datum, m1) => sendDataLoop k (i + 1) (out ++ sendDatum datum) m1
    | (none, m1) => sendDataLoop k (i + 1) out m1

/-- `OSCMessage::send`: the bytes written to the sink, and the message. -/
def send (m : OSCMessage) : List Nat × OSCMessage :=
  match hasError m with
  | (true, m0) => ([], m0)
  | (false, m0) =>
    let addrLen := addressLength m0 + 1
    let addrPad := padSize addrLen
    let out := addressBytes m0
    let out := out ++ List.replicate addrPad 0
    let out := out ++ [44]
    match sendTypesLoop m0.dataCount 0 out m0 with
    | (out, m1) =>
      let typePad := if padSize (m1.dataCount + 1) = 0 then 4 else padSize (m1.dataCount + 1)
      let out := out ++ List.replicate typePad 0
      sendDataLoop m1.dataCount 0 out m1

/-! ## Decoding -/

/-- `OSCMessage::decodeAddress`. -/
def decodeAddress (m : OSCMessage) : OSCMessage :=
  clearIncomingBuffer { setAddress m m.incomingBuffer with error := .OSC_OK }

/-- `OSCMessage::decodeType`. -/
def decodeType (m : OSCMessage) (incomingByte : Nat) : OSCMessage :=
  add m (OSCData.ofType incomingByte)

/-- The `switch` of `decodeData` for the value `datum` found at position `i`.
In the case `b` the source reads `datum->bytes` after `set`: that is the byte
length of the completed blob. -/
def decodeDatum (m : OSCMessage) (i : Nat) (datum : OSCData) (incomingByte : Nat) :
    OSCMessage :=
  if datum.type = 105 then
    if m.incomingBufferSize = 4 then
      clearIncomingBuffer (set m i (OSCData.ofInt (fromBigEndian (m.incomingBuffer.take 4))))
    else m
  else if datum.type = 102 then
    if m.incomingBufferSize = 4 then
      clearIncomingBuffer (set m i (OSCData.ofFloat (fromBigEndian (m.incomingBuffer.take 4))))
    else m
  else if datum.type = 100 then
    if m.incomingBufferSize = 8 then
      clearIncomingBuffer (set m i (OSCData.ofDouble (fromBigEndian (m.incomingBuffer.take 8))))
    else m
  else if datum.type = 116 then
    if m.incomingBufferSize = 8 then
      clearIncomingBuffer (set m i (OSCData.ofTime (fromBigEndian (m.incomingBuffer.take 8))))
    else m
  else if datum.type = 115 then
    if incomingByte = 0 then
      { clearIncomingBuffer (set m i (OSCData.ofString m.incomingBuffer)) with
        decodeState := .DATA_PADDING }
    else m
  else if datum.type = 98 then
    if m.incomingBufferSize > 4 then
      let blobLength := fromBigEndian (m.incomingBuffer.take 4)
      if m.incomingBufferSize = (blobLength + 4) % 4294967296 then
        let completed := OSCData.ofBlob (m.incomingBuffer.drop 4) blobLength
        let m1 := clearIncomingBuffer (set m i completed)
        if padSize completed.bytes > 0 then
          { m1 with decodeState := .DATA_PADDING }
        else m1
      else m
    else m
  else m

/-- The loop of `decodeData`: it stops at the first value whose error is
`INVALID_OSC`. -/
def decodeDataLoop : Nat → Nat → OSCMessage → Nat → OSCMessage
  | 0, _, m, _ => m
  | k + 1, i, m, incomingByte =>
    match getOSCData m i with
    | (some datum, m1) =>
      if datum.error = .INVALID_OSC then decodeDatum m1 i datum incomingByte
      else decodeDataLoop k (i + 1) m1 incomingByte
    | (none, m1) => decodeDataLoop k (i + 1) m1 incomingByte

/-- `OSCMessage::decodeData`. -/
def decodeData (m : OSCMessage) (incomingByte : Nat) : OSCMessage :=
  decodeDataLoop m.dataCount 0 m incomingByte

/-- The loop of the state `DATA_PADDING`: from the last value down, it stops at
the first value whose error is `OSC_OK`; `k` is the loop variable plus one. -/
def dataPaddingLoop : Nat → OSCMessage → OSCMessage
  | 0, m => m
  | k + 1, m =>
    match getOSCData m k with
    | (some datum, m1) =>
      if datum.error = .OSC_OK then
        if m1.incomingBufferSize = padSize datum.bytes then
          { clearIncomingBuffer m1 with decodeState := .DATA }
        else m1
      else dataPaddingLoop k m1
    | (none, m1) => dataPaddingLoop k m1

/-- `OSCMessage::decode`. -/
def decode (m : OSCMessage) (incomingByte : Nat) : OSCMessage :=
  let m := addToIncomingBuffer m incomingByte
  match m.decodeState with
  | .STANDBY =>
    if incomingByte = 47 then { m with decodeState := .ADDRESS } else m
  | .ADDRESS =>
    if incomingByte = 0 then { decodeAddress m with decodeState := .ADDRESS_PADDING } else m
  | .ADDRESS_PADDING =>
    if incomingByte = 44 then { clearIncomingBuffer m with decodeState := .TYPES } else m
  | .TYPES =>
    if incomingByte ≠ 0 then decodeType m incomingByte
    else if padSize (m.incomingBufferSize + 1) = 0 then
      { clearIncomingBuffer m with decodeState := .DATA }
    else { m with decodeState := .TYPES_PADDING }
  | .TYPES_PADDING =>
    if padSize (m.incomingBufferSize + 1) = 0 then
      { clearIncomingBuffer m with decodeState := .DATA }
    else m
  | .DATA => decodeData m incomingByte
  | .DATA_PADDING => dataPaddingLoop m.dataCount m

/-- `OSCMessage::fill(uint8_t *, int)`: the bytes are decoded one by one. -/
def fill (m : OSCMessage) (incomingBytes : List Nat) : OSCMessage :=
  incomingBytes.foldl decode m

/-- `OSCMessage::decodeType`, for any constructor `ofTag` of a value from its
type tag (`OSCData(char)`, absent from the sources). -/
def decodeTypeWith (ofTag : Nat → OSCData) (m : OSCMessage) (incomingByte : Nat) : OSCMessage :=
  add m (ofTag incomingByte)

/-- `OSCMessage::decode`, for any constructor `ofTag` of a value from its type
tag: `decode` is the instance `ofTag = OSCData.ofType`. -/
def decodeWith (ofTag : Nat → OSCData) (m : OSCMessage) (incomingByte : Nat) : OSCMessage :=
  let m := addToIncomingBuffer m incomingByte
  match m.decodeState with
  | .STANDBY =>
    if incomingByte = 47 then { m with decodeState := .ADDRESS } else m
  | .ADDRESS =>
    if incomingByte = 0 then { decodeAddress m with decodeState := .ADDRESS_PADDING } else m
  | .ADDRESS_PADDING =>
    if incomingByte = 44 then { clearIncomingBuffer m with decodeState := .TYPES } else m
  | .TYPES =>
    if incomingByte ≠ 0 then decodeTypeWith ofTag m incomingByte
    else if padSize (m.incomingBufferSize + 1) = 0 then
      { clearIncomingBuffer m with decodeState := .DATA }
    else { m with decodeState := .TYPES_PADDING }
  | .TYPES_PADDING =>
    if padSize (m.incomingBufferSize + 1) = 0 then
      { clearIncomingBuffer m with decodeState := .DATA }
    else m
  | .DATA => decodeData m incomingByte
  | .DATA_PADDING => dataPaddingLoop m.dataCount m

/-- `OSCMessage::fill(uint8_t *, int)`, for any constructor `ofTag` of a value
from its type tag. -/
def fillWith (ofTag : Nat → OSCData) (m : OSCMessage) (incomingBytes : List Nat) : OSCMessage :=
  incomingBytes.foldl (decodeWith ofTag) m

/-! ## The index-based getters and the tests -/

/-- Modelled from the spec: `OSCData::getFloat` (absent from the sources) returns
the stored `float`, as its 32-bit pattern, when the type is `f`, and the zero
default (pattern 0) otherwise. -/
def OSCData.getFloat (d : OSCData) : Nat :=
  if d.type = 102 then d.data.asWord32 else 0

/-- Modelled from the spec: `OSCData::getDouble` (absent from the sources)
returns the stored `double`, as its 64-bit pattern, when the type is `d`, and
the zero default (pattern 0) otherwise. -/
def OSCData.getDouble (d : OSCData) : Nat :=
  if d.type = 100 then d.data.asWord64 else 0

/-- Modelled from the spec: `OSCData::getString(buffer, maxLen)` (absent from the
sources) copies `min(maxLen, byteLength)` bytes into the caller's buffer and
returns how many it wrote; the result is that count and the bytes written. -/
def OSCData.getString (d : OSCData) (maxLen : Nat) : Nat × List Nat :=
  (min maxLen d.bytes, d.data.asBlock.take (min maxLen d.bytes))

/-- Modelled from the spec: `OSCData::getBlob(buffer, maxLen)` (absent from the
sources) copies `min(maxLen, byteLength)` bytes into the caller's buffer and
returns how many it wrote; the result is that count and the bytes written. -/
def OSCData.getBlob (d : OSCData) (maxLen : Nat) : Nat × List Nat :=
  (min maxLen d.bytes, d.data.asBlock.take (min maxLen d.bytes))

/-- `OSCMessage::getInt`. -/
def getInt (m : OSCMessage) (position : Nat) : Int × OSCMessage :=
  match getOSCData m position with
  | (datum, m1) =>
    match hasError m1 with
    | (false, m2) =>
      match datum with
      | some d => (d.getInt, m2)
      | none => (0, m2)
    | (true, m2) => (0, m2)

/-- `OSCMessage::getTime`. -/
def getTime (m : OSCMessage) (position : Nat) : Nat × OSCMessage :=
  match getOSCData m position with
  | (datum, m1) =>
    match hasError m1 with
    | (false, m2) =>
      match datum with
      | some d => (d.getTime, m2)
      | none => (0, m2)
    | (true, m2) => (0, m2)

/-- `OSCMessage::getFloat`; the result is the 32-bit pattern of the `float`. -/
def getFloat (m : OSCMessage) (position : Nat) : Nat × OSCMessage :=
  match getOSCData m position with
  | (datum, m1) =>
    match hasError m1 with
    | (false, m2) =>
      match datum with
      | some d => (d.getFloat, m2)
      | none => (0, m2)
    | (true, m2) => (0, m2)

/-- `OSCMessage::getDouble`; the result is the 64-bit pattern of the
`double`. -/
def getDouble (m : OSCMessage) (position : Nat) : Nat × OSCMessage :=
  match getOSCData m position with
  | (datum, m1) =>
    match hasError m1 with
    | (false, m2) =>
      match datum with
      | some d => (d.getDouble, m2)
      | none => (0, m2)
    | (true, m2) => (0, m2)

/-- `OSCMessage::getString`: the returned count and the bytes written into the
caller's buffer of `bufferSize` bytes. -/
def getString (m : OSCMessage) (position : Nat) (bufferSize : Nat) :
    (Nat × List Nat) × OSCMessage :=
  match getOSCData m position with
  | (datum, m1) =>
    match hasError m1 with
    | (false, m2) =>
      match datum with
      | some d =>
        let copyBytes := if bufferSize < d.bytes then bufferSize else d.bytes
        (d.getString copyBytes, m2)
      | none => ((0, []), m2)
    | (true, m2) => ((0, []), m2)

/-- `OSCMessage::getBlob`: the returned count and the bytes written into the
caller's buffer of `bufferSize` bytes. -/
def getBlob (m : OSCMessage) (position : Nat) (bufferSize : Nat) :
    (Nat × List Nat) × OSCMessage :=
  match getOSCData m position with
  | (datum, m1) =>
    match hasError m1 with
    | (false, m2) =>
      match datum with
      | some d =>
        let copyBytes := if bufferSize < d.bytes then bufferSize else d.bytes
        (d.getBlob copyBytes, m2)
      | none => ((0, []), m2)
    | (true, m2) => ((0, []), m2)

/-- `OSCMessage::getDataCount`. -/
def getDataCount (m : OSCMessage) : Nat :=
  m.dataCount

/-- `OSCMessage::getDataLength`. -/
def getDataLength (m : OSCMessage) (position : Nat) : Nat × OSCMessage :=
  match getOSCData m position with
  | (datum, m1) =>
    match hasError m1 with
    | (false, m2) =>
      match datum with
      | some d => (d.bytes, m2)
      | none => (0, m2)
    | (true, m2) => (0, m2)

/-- `OSCMessage::testType`. -/
def testType (m : OSCMessage) (position : Nat) (type : Nat) : Bool × OSCMessage :=
  match getOSCData m position with
  | (datum, m1) =>
    match hasError m1 with
    | (false, m2) =>
      match datum with
      | some d => (d.type == type, m2)
      | none => (false, m2)
    | (true, m2) => (false, m2)

/-- `OSCMessage::isInt`. -/
def isInt (m : OSCMessage) (position : Nat) : Bool × OSCMessage :=
  testType m position 105

/-- `OSCMessage::isTime`. -/
def isTime (m : OSCMessage) (position : Nat) : Bool × OSCMessage :=
  testType m position 116

/-- `OSCMessage::isFloat`. -/
def isFloat (m : OSCMessage) (position : Nat) : Bool × OSCMessage :=
  testType m position 102

/-- `OSCMessage::isBlob`. -/
def isBlob (m : OSCMessage) (position : Nat) : Bool × OSCMessage :=
  testType m position 98

/-- `OSCMessage::isChar`. -/
def isChar (m : OSCMessage) (position : Nat) : Bool × OSCMessage :=
  testType m position 99

/-- `OSCMessage::isString`. -/
def isString (m : OSCMessage) (position : Nat) : Bool × OSCMessage :=
  testType m position 115

/-- `OSCMessage::isDouble`. -/
def isDouble (m : OSCMessage) (position : Nat) : Bool × OSCMessage :=
  testType m position 100

/-- `OSCMessage::isBoolean`: the second test runs only when the first one is
false. -/
def isBoolean (m : OSCMessage) (position : Nat) : Bool × OSCMessage :=
  match testType m position 84 with
  | (true, m1) => (true, m1)
  | (false, m1) => testType m1 position 70

/-- `OSCMessage::size`. -/
def size (m : OSCMessage) : Nat :=
  m.dataCount

/-- `OSCMessage::getError`. -/
def getError (m : OSCMessage) : OSCErrorCode :=
  m.error

/-! ## Emptying -/

/-- The loop of `empty` that deletes the values one by one: `getOSCData` is
called for each position. -/
def emptyLoop : Nat → Nat → OSCMessage → OSCMessage
  | 0, _, m => m
  | k + 1, i, m => emptyLoop k (i + 1) (getOSCData m i).2

/-- `OSCMessage::empty`. -/
def empty (m : OSCMessage) : OSCMessage :=
  let m1 := { m with error := .OSC_OK }
  let m2 := emptyLoop m1.dataCount 0 m1
  clearIncomingBuffer { m2 with data := [] }

/-! ## Pattern matching -/

/-- Modelled from the spec: what a call of `osc_match` (declared in the absent
`OSCMatch.h`) reports: its return value and the two offsets it stores through
its third and fourth argument, the number of characters it has consumed of its
first and of its second string. -/
structure MatchResult where
  ret : Nat
  first_offset : Nat
  second_offset : Nat
  deriving DecidableEq, Repr

/-- The C string `address + addr_offset`, for an address that is not null and
an offset within it; the source has no defined result otherwise, and the empty
string there is a placeholder. -/
def addressFrom (m : OSCMessage) (addr_offset : Nat) : List Nat :=
  (m.address.getD []).drop addr_offset

/-- The character `address[index]`, the terminator included, for an address
that is not null and an index up to its terminator; the source has no defined
result otherwise, and the value 0 there is a placeholder. -/
def addressChar (m : OSCMessage) (index : Nat) : Nat :=
  (m.address.getD [] ++ [0]).getD index 0

/-- `OSCMessage::match` (`match` is a keyword here), for the matcher
`osc_match`. The variable `pattern_offset` of the source receives what the
matcher stores through its third argument, the number of characters consumed
of the string passed first, which is the address from `addr_offset`. -/
def matchSegment (osc_match : List Nat → List Nat → MatchResult) (m : OSCMessage)
    (pattern : List Nat) (addr_offset : Nat) : Nat :=
  let r := osc_match (addressFrom m addr_offset) pattern
  let pattern_offset := r.first_offset
  let next := addressChar m (addr_offset + pattern_offset)
  if r.ret = 3 then pattern_offset
  else if pattern_offset > 0 ∧ next = 47 then pattern_offset
  else 0

/-- `OSCMessage::fullMatch`, for the matcher `osc_match`. -/
def fullMatch (osc_match : List Nat → List Nat → MatchResult) (m : OSCMessage)
    (pattern : List Nat) (addr_offset : Nat) : Bool :=
  let r := osc_match (addressFrom m addr_offset) pattern
  r.ret == 3

/-- `OSCMessage::dispatch`, for the matcher `osc_match`. The callback receives
the message by reference and may change it and the state `s` of the program
around it; the result is the returned flag, the message and that state. -/
def dispatch {σ : Type} (osc_match : List Nat → List Nat → MatchResult) (m : OSCMessage)
    (pattern : List Nat) (callback : OSCMessage → σ → OSCMessage × σ) (addr_offset : Nat)
    (s : σ) : Bool × OSCMessage × σ :=
  if fullMatch osc_match m pattern addr_offset then
    (true, callback m s)
  else
    (false, m, s)

/-- `OSCMessage::route`, for the matcher `osc_match`. The callback receives the
message by reference and the offset past the matched part. -/
def route {σ : Type} (osc_match : List Nat → List Nat → MatchResult) (m : OSCMessage)
    (pattern : List Nat) (callback : OSCMessage → Nat → σ → OSCMessage × σ)
    (initial_offset : Nat) (s : σ) : Bool × OSCMessage × σ :=
  let match_offset := matchSegment osc_match m pattern initial_offset
  if match_offset > 0 then
    (true, callback m (match_offset + initial_offset) s)
  else
    (false, m, s)

/-- The characters before the first `close`, and what follows that `close`. -/
def splitAtClose (close : Nat) (l : List Nat) : List Nat × List Nat :=
  (l.takeWhile (fun c => c != close), (l.dropWhile (fun c => c != close)).drop 1)

/-- Modelled from the spec: membership of `c` in the body of a bracketed
character class, a sequence of characters and of ranges `lo-hi`. -/
def classBody : Nat → List Nat → Nat → Bool
  | 0, _, _ => false
  | _ + 1, [], _ => false
  | fuel + 1, lo :: 45 :: hi :: rest, c => (decide (lo ≤ c) && decide (c ≤ hi)) || classBody fuel rest c
  | fuel + 1, x :: rest, c => x == c || classBody fuel rest c

/-- Modelled from the spec: a bracketed character class, negated when it starts
with `!`. -/
def classMatch (body : List Nat) (c : Nat) : Bool :=
  match body with
  | 33 :: rest => !(classBody (rest.length + 1) rest c)
  | _ => classBody (body.length + 1) body c

/-- Modelled from the spec: the alternatives of a brace-delimited alternation,
separated by commas. -/
def alternatives : List Nat → List (List Nat)
  | [] => [[]]
  | c :: rest =>
    if c = 44 then [] :: alternatives rest
    else
      match alternatives rest with
      | [] => [[c]]
      | a :: others => (c :: a) :: others

/-- Modelled from the spec: does the pattern segment `p` (no separator in it)
match the whole address segment `a`: literal characters, `?` for one character,
`*` for any run of characters, bracketed classes and brace alternation. -/
def globSegment : Nat → List Nat → List Nat → Bool
  | 0, _, _ => false
  | _ + 1, [], a => a.isEmpty
  | fuel + 1, p :: ps, a =>
    if p = 42 then
      globSegment fuel ps a ||
        (match a with
         | [] => false
         | _ :: rest => globSegment fuel (p :: ps) rest)
    else if p = 63 then
      match a with
      | [] => false
      | _ :: rest => globSegment fuel ps rest
    else if p = 91 then
      match a with
      | [] => false
      | c :: rest =>
        classMatch (splitAtClose 93 ps).1 c && globSegment fuel (splitAtClose 93 ps).2 rest
    else if p = 123 then
      (alternatives (splitAtClose 125 ps).1).any (fun alt =>
        (a.take alt.length == alt) && globSegment fuel (splitAtClose 125 ps).2 (a.drop alt.length))
    else
      match a with
      | [] => false
      | c :: rest => p == c && globSegment fuel ps rest

/-- Modelled from the spec: the scan of `osc_match` over its first string, an
address taken literally, and its second string, the pattern of the caller,
which may hold wildcards; `fo` and `so` characters of them are consumed so far.
It stops when one of the two is exhausted and reports which (1: the second, 2:
the first, 3: both), or reports 0 at a mismatch. A `*` matches within one
segment of the address. -/
def oscMatchLoop : Nat → List Nat → List Nat → Nat → Nat → MatchResult
  | 0, _, _, _, _ => { ret := 0, first_offset := 0, second_offset := 0 }
  | _ + 1, [], [], fo, so => { ret := 3, first_offset := fo, second_offset := so }
  | _ + 1, _ :: _, [], fo, so => { ret := 1, first_offset := fo, second_offset := so }
  | fuel + 1, first, p :: ps, fo, so =>
    if p = 42 then
      let pseg := (p :: ps).takeWhile (fun c => c != 47)
      let aseg := first.takeWhile (fun c => c != 47)
      if globSegment (pseg.length + aseg.length + 1) pseg aseg then
        oscMatchLoop fuel (first.drop aseg.length) ((p :: ps).drop pseg.length)
          (fo + aseg.length) (so + pseg.length)
      else { ret := 0, first_offset := 0, second_offset := 0 }
    else
      match first with
      | [] => { ret := 2, first_offset := fo, second_offset := so }
      | a :: rest =>
        if p = 63 then
          if a ≠ 47 then oscMatchLoop fuel rest ps (fo + 1) (so + 1)
          else { ret := 0, first_offset := 0, second_offset := 0 }
        else if p = 91 then
          if classMatch (splitAtClose 93 ps).1 a then
            oscMatchLoop fuel rest (splitAtClose 93 ps).2 (fo + 1)
              (so + (splitAtClose 93 ps).1.length + 2)
          else { ret := 0, first_offset := 0, second_offset := 0 }
        else if p = 123 then
          match (alternatives (splitAtClose 125 ps).1).find?
              (fun alt => (a :: rest).take alt.length == alt) with
          | some alt =>
            oscMatchLoop fuel ((a :: rest).drop alt.length) (splitAtClose 125 ps).2
              (fo + alt.length) (so + (splitAtClose 125 ps).1.length + 2)
          | none => { ret := 0, first_offset := 0, second_offset := 0 }
        else if p = a then oscMatchLoop fuel rest ps (fo + 1) (so + 1)
        else { ret := 0, first_offset := 0, second_offset := 0 }

/-- Modelled from the spec: `osc_match` (the address pattern matcher of the
absent `OSCMatch.h`), for the standard OSC address-pattern grammar, called as
the source calls it: the first string is the address of the message from the
offset, the second the pattern of the caller, which may hold wildcards. -/
def osc_match (address pattern : List Nat) : MatchResult :=
  oscMatchLoop (address.length + pattern.length + 1) address pattern 0 0

/-- A pattern without wildcard: none of `*`, `?`, `[`, `{` in it. -/
def isLiteral (pattern : List Nat) : Bool :=
  pattern.all (fun c => c != 42 && c != 63 && c != 91 && c != 123)

/-! ## Notions of the specification -/

/-- The aggregate error of a message, in the words of the specification: its
own error code is not `Ok`, or the error code of one of its values is not
`Ok`. -/
def aggregateError (m : OSCMessage) : Bool :=
  (m.error != .OSC_OK) || m.data.any (fun d => d.error != .OSC_OK)

/-- A value whose byte length is consistent with its type, in the words of the
specification: 4 for `i`/`f`, 8 for `d`/`t`, 0 for `T`/`F`, and for `s`/`b` the
length of the owned bytes (characters and terminator for a string). -/
def OSCData.consistent (d : OSCData) : Bool :=
  if d.type = 105 ∨ d.type = 102 then d.bytes == 4
  else if d.type = 100 ∨ d.type = 116 then d.bytes == 8
  else if d.type = 84 ∨ d.type = 70 then d.bytes == 0
  else if d.type = 115 ∨ d.type = 98 then d.data.asBlock.length == d.bytes
  else false

/-- The padding of the type-tag string of `n` values, in the words of the
specification: `(n + 1) mod 4`, forced to 4 when that is 0. -/
def typePadding (n : Nat) : Nat :=
  if (n + 1) % 4 = 0 then 4 else (n + 1) % 4

/-- The payload of one value on the wire, in the words of the specification:
`s`/`b` as `byteLength` raw bytes and `byteLength mod 4` zero bytes, `d`/`t` as
8 big-endian bytes, `i`/`f` as 4 big-endian bytes, `T`/`F` as nothing. -/
def payloadLayout (d : OSCData) : List Nat :=
  if d.type = 115 ∨ d.type = 98 then
    d.data.asBlock.take d.bytes ++ List.replicate (d.bytes % 4) 0
  else if d.type = 100 ∨ d.type = 116 then bigEndianBytes 8 d.data.asWord64
  else if d.type = 105 ∨ d.type = 102 then bigEndianBytes 4 d.data.asWord32
  else []

/-- The packet of a message with address `a` and values `vs`, in the words of
the specification. -/
def wireLayout (a : List Nat) (vs : List OSCData) : List Nat :=
  a ++ [0] ++ List.replicate ((a.length + 1) % 4) 0 ++ [44] ++ vs.map (fun d => d.type)
    ++ List.replicate (typePadding vs.length) 0 ++ (vs.map payloadLayout).flatten

/-! ## Auxiliary definitions -/

/-- The bytes `w` appended to the incoming buffer one by one. -/
def addBytes (m : OSCMessage) (w : List Nat) : OSCMessage :=
  w.foldl addToIncomingBuffer m

/-- The message `m` with another address and another own error code. -/
def withAddressError (m : OSCMessage) (a : Option (List Nat)) (e : OSCErrorCode) : OSCMessage :=
  { m with address := a, error := e }

/-- The calls that read a message: the index-based getters, the type tests,
the counters, `bytes`, `hasError`, `getError` and `send`, each with its
arguments. -/
inductive ReadCall
  | getInt (position : Nat)
  | getTime (position : Nat)
  | getFloat (position : Nat)
  | getDouble (position : Nat)
  | getString (position bufferSize : Nat)
  | getBlob (position bufferSize : Nat)
  | getType (position : Nat)
  | getDataLength (position : Nat)
  | testType (position type : Nat)
  | isInt (position : Nat)
  | isTime (position : Nat)
  | isFloat (position : Nat)
  | isBlob (position : Nat)
  | isChar (position : Nat)
  | isString (position : Nat)
  | isDouble (position : Nat)
  | isBoolean (position : Nat)
  | getDataCount
  | size
  | bytes
  | hasError
  | getError
  | send
  deriving DecidableEq, Repr

/-- The message after one call. -/
def ReadCall.run (m : OSCMessage) : ReadCall → OSCMessage
  | .getInt position => (OSC.getInt m position).2
  | .getTime position => (OSC.getTime m position).2
  | .getFloat position => (OSC.getFloat m position).2
  | .getDouble position => (OSC.getDouble m position).2
  | .getString position bufferSize => (OSC.getString m position bufferSize).2
  | .getBlob position bufferSize => (OSC.getBlob m position bufferSize).2
  | .getType position => (OSC.getType m position).2
  | .getDataLength position => (OSC.getDataLength m position).2
  | .testType position type => (OSC.testType m position type).2
  | .isInt position => (OSC.isInt m position).2
  | .isTime position => (OSC.isTime m position).2
  | .isFloat position => (OSC.isFloat m position).2
  | .isBlob position => (OSC.isBlob m position).2
  | .isChar position => (OSC.isChar m position).2
  | .isString position => (OSC.isString m position).2
  | .isDouble position => (OSC.isDouble m position).2
  | .isBoolean position => (OSC.isBoolean m position).2
  | .getDataCount => m
  | .size => m
  | .bytes => (OSC.bytes m).2
  | .hasError => (OSC.hasError m).2
  | .getError => m
  | .send => (OSC.send m).2

/-- The message after a sequence of calls. -/
def runCalls (m : OSCMessage) (calls : List ReadCall) : OSCMessage :=
  calls.foldl ReadCall.run m

/-- The two calls that change the incoming buffer. -/
inductive BufferCall
  | add (incomingByte : Nat)
  | clear
  deriving DecidableEq, Repr

/-- The message after one call on the incoming buffer. -/
def BufferCall.run (m : OSCMessage) : BufferCall → OSCMessage
  | .add incomingByte => addToIncomingBuffer m incomingByte
  | .clear => clearIncomingBuffer m

/-- The message after a sequence of calls on the incoming buffer. -/
def runBufferCalls (m : OSCMessage) (calls : List BufferCall) : OSCMessage :=
  calls.foldl BufferCall.run m

/-- The invariant of the growable buffer, in the words of the specification:
the allocated capacity is the size plus the free slots, and it is a positive
multiple of 16. -/
def bufferInvariant (m : OSCMessage) : Prop :=
  m.incomingBufferAlloc = m.incomingBufferSize + m.incomingBufferFree
    ∧ 0 < m.incomingBufferAlloc ∧ m.incomingBufferAlloc % 16 = 0

/-! ## Example messages -/

/-- The message `/synth/1/freq` with the float 440.0 (pattern `0x43DC0000`). -/
def freqMessage : OSCMessage :=
  add (OSCMessage.withAddress [47, 115, 121, 110, 116, 104, 47, 49, 47, 102, 114, 101, 113])
    (OSCData.ofFloat 1138491392)

/-- The message `/a` with the two integers 1 and 2. -/
def twoIntsMessage : OSCMessage :=
  add (add (OSCMessage.withAddress [47, 97]) (OSCData.ofInt 1)) (OSCData.ofInt 2)

/-- A decoder that has read the header `/a` `,i` and its padding: it waits in
`DATA` for the four bytes of the integer. -/
def awaitingInt : OSCMessage :=
  fill OSCMessage.new [47, 97, 0, 0, 44, 105, 0, 0]

/-- A decoder that has read the header `/a` `,t` and its padding: it waits in
`DATA` for the eight bytes of the time tag. -/
def awaitingTime : OSCMessage :=
  fill OSCMessage.new [47, 97, 0, 0, 44, 116, 0, 0]

/-- A decoder that has read the header `/a` `,si` and its padding: it waits in
`DATA` for the string. -/
def awaitingString : OSCMessage :=
  fill OSCMessage.new [47, 97, 0, 0, 44, 115, 105, 0]

/-- A decoder that has read the header `/a` `,b` and its padding: it waits in
`DATA` for the blob. -/
def awaitingBlob : OSCMessage :=
  fill OSCMessage.new [47, 97, 0, 0, 44, 98, 0, 0]

/-- The message `/b` with the blob `01 02 03`. -/
def blobMessage : OSCMessage :=
  add (OSCMessage.withAddress [47, 98]) (OSCData.ofBlob [1, 2, 3] 3)

/-- The message `/b` with a blob value whose stored block is the length word
`00 00 00 03` followed by the payload `01 02 03`, its byte length 7. -/
def wordBlobMessage : OSCMessage :=
  add (OSCMessage.withAddress [47, 98])
    { type := 98, bytes := 7, error := .OSC_OK, data := .block [0, 0, 0, 3, 1, 2, 3] }

/-- A decoder that has read the whole packet `/a` `,i` 7: it is in `DATA`, the
integer complete. -/
def decodedInt : OSCMessage :=
  fill OSCMessage.new [47, 97, 0, 0, 44, 105, 0, 0, 0, 0, 0, 7]

/-- A decoder that has read the header `/a` `,bi` and its padding: it waits in
`DATA` for the blob, the integer after it incomplete too. -/
def awaitingBlobInt : OSCMessage :=
  fill OSCMessage.new [47, 97, 0, 0, 44, 98, 105, 0]

/-! ## The loops of the getters, of `bytes` and of `send` -/

theorem drop_cons_inv {α : Type} {l : List α} {i : Nat} {d : α} {l' : List α}
    (h : l.drop i = d :: l') : i < l.length ∧ l[i]? = some d ∧ l.drop (i + 1) = l' := by
  have hlt : i < l.length := by
    by_contra hge
    rw [List.drop_eq_nil_of_le (by omega)] at h
    cases h
  refine ⟨hlt, ?_, ?_⟩
  · rw [← List.head?_drop, h]; rfl
  · rw [← List.tail_drop, h]; rfl

theorem getOSCData_of_getElem? {m : OSCMessage} {i : Nat} {d : OSCData}
    (h : m.data[i]? = some d) : getOSCData m i = (some d, m) := by
  have hlt : i < m.data.length := by
    by_contra hge
    rw [List.getElem?_eq_none (by omega)] at h
    cases h
  simp [getOSCData, OSCMessage.dataCount, hlt, h]

theorem hasErrorLoop_eq (m : OSCMessage) :
    ∀ (l : List OSCData) (i : Nat) (r : Bool), m.data.drop i = l →
      hasErrorLoop l.length i r m = (r || l.any (fun d => d.error != .OSC_OK), m) := by
  intro l
  induction l with
  | nil => intro i r _; simp [hasErrorLoop]
  | cons d l ih =>
    intro i r h
    obtain ⟨_, hd, hl⟩ := drop_cons_inv h
    simp only [List.length_cons, hasErrorLoop, getOSCData_of_getElem? hd, ih (i + 1) _ hl,
      List.any_cons, Bool.or_assoc]

theorem hasError_eq (m : OSCMessage) : hasError m = (aggregateError m, m) := by
  unfold hasError OSCMessage.dataCount
  rw [hasErrorLoop_eq m m.data 0 _ (by simp)]
  rfl

theorem padSize_eq (n : Nat) : padSize n = n % 4 := by
  unfold padSize; omega

theorem getType_of_getElem? {m : OSCMessage} {i : Nat} {d : OSCData}
    (h : m.data[i]? = some d) (he : aggregateError m = false) : getType m i = (d.type, m) := by
  simp [getType, getOSCData_of_getElem? h, hasError_eq, he]

theorem sendTypesLoop_eq (m : OSCMessage) (he : aggregateError m = false) :
    ∀ (l : List OSCData) (i : Nat) (out : List Nat), m.data.drop i = l →
      sendTypesLoop l.length i out m = (out ++ l.map (fun d => d.type % 256), m) := by
  intro l
  induction l with
  | nil => intro i out _; simp [sendTypesLoop]
  | cons d l ih =>
    intro i out h
    obtain ⟨_, hd, hl⟩ := drop_cons_inv h
    simp only [List.length_cons, sendTypesLoop, getType_of_getElem? hd he, ih (i + 1) _ hl,
      List.map_cons, List.append_assoc, List.singleton_append]

theorem sendDataLoop_eq (m : OSCMessage) :
    ∀ (l : List OSCData) (i : Nat) (out : List Nat), m.data.drop i = l →
      sendDataLoop l.length i out m = (out ++ (l.map sendDatum).flatten, m) := by
  intro l
  induction l with
  | nil => intro i out _; simp [sendDataLoop]
  | cons d l ih =>
    intro i out h
    obtain ⟨_, hd, hl⟩ := drop_cons_inv h
    simp only [List.length_cons, sendDataLoop, getOSCData_of_getElem? hd, ih (i + 1) _ hl,
      List.map_cons, List.flatten_cons, List.append_assoc]

theorem bytesLoop_eq (m : OSCMessage) :
    ∀ (l : List OSCData) (i : Nat) (acc : Nat), m.data.drop i = l →
      bytesLoop l.length i acc m =
        (acc + (l.map (fun d => d.bytes + padSize d.bytes)).sum, m) := by
  intro l
  induction l with
  | nil => intro i out _; simp [bytesLoop]
  | cons d l ih =>
    intro i out h
    obtain ⟨_, hd, hl⟩ := drop_cons_inv h
    simp only [List.length_cons, bytesLoop, getOSCData_of_getElem? hd, ih (i + 1) _ hl,
      List.map_cons, List.sum_cons]
    congr 1; omega

theorem send_eq_of_noError (m : OSCMessage) (he : aggregateError m = false) :
    send m = (addressBytes m ++ List.replicate (padSize (addressLength m + 1)) 0 ++ [44]
      ++ m.data.map (fun d => d.type % 256)
      ++ List.replicate (typePadding m.data.length) 0
      ++ (m.data.map sendDatum).flatten, m) := by
  unfold send
  rw [hasError_eq, he]
  simp only [OSCMessage.dataCount]
  rw [sendTypesLoop_eq m he m.data 0 _ (by simp)]
  simp only []
  rw [sendDataLoop_eq m m.data 0 _ (by simp)]
  simp [typePadding, padSize_eq]

theorem send_of_error (m : OSCMessage) (he : aggregateError m = true) : send m = ([], m) := by
  unfold send
  rw [hasError_eq, he]

theorem bytes_eq (m : OSCMessage) :
    bytes m = (addressLength m + 1 + padSize (addressLength m + 1) + 1 + m.data.length
      + typePadding m.data.length + (m.data.map (fun d => d.bytes + padSize d.bytes)).sum, m) := by
  unfold bytes
  simp only [OSCMessage.dataCount]
  rw [bytesLoop_eq m m.data 0 _ (by simp)]
  simp [typePadding, padSize_eq]

theorem bigEndianBytes_length (w x : Nat) : (bigEndianBytes w x).length = w := by
  induction w with
  | zero => rfl
  | succ w ih => simp [bigEndianBytes, ih]

theorem sendDatum_of_consistent (d : OSCData) (h : d.consistent = true) :
    sendDatum d = payloadLayout d ∧ (sendDatum d).length = d.bytes + padSize d.bytes
      ∧ d.type % 256 = d.type := by
  unfold OSCData.consistent at h
  unfold sendDatum payloadLayout
  by_cases h1 : d.type = 105 ∨ d.type = 102
  · have hb : d.bytes = 4 := by simpa [h1] using h
    rcases h1 with h1 | h1 <;>
      simp [h1, hb, padSize_eq, bigEndianBytes_length, List.take_of_length_le]
  · rw [if_neg h1] at h
    by_cases h2 : d.type = 100 ∨ d.type = 116
    · have hb : d.bytes = 8 := by simpa [h2] using h
      rcases h2 with h2 | h2 <;> simp [h2, hb, padSize_eq, bigEndianBytes_length]
    · rw [if_neg h2] at h
      by_cases h3 : d.type = 84 ∨ d.type = 70
      · have hb : d.bytes = 0 := by simpa [h3] using h
        rcases h3 with h3 | h3 <;> simp [h3, hb, padSize_eq]
      · rw [if_neg h3] at h
        by_cases h4 : d.type = 115 ∨ d.type = 98
        · have hb : d.data.asBlock.length = d.bytes := by simpa [h4] using h
          rcases h4 with h4 | h4 <;> simp [h4, hb, padSize_eq]
        · simp [h4] at h

/-! ## The encoder: `hasError`, `bytes`, `send` -/

theorem aggregateError_eq_true_iff (m : OSCMessage) :
    aggregateError m = true ↔ (m.error ≠ .OSC_OK ∨ ∃ d ∈ m.data, d.error ≠ .OSC_OK) := by
  simp [aggregateError]

theorem send_written_of_consistent (m : OSCMessage) (a : List Nat) (ha : m.address = some a)
    (herr : (hasError m).1 = false) (hcons : ∀ d ∈ m.data, d.consistent = true) :
    (send m).1 = wireLayout a m.data := by
  have he : aggregateError m = false := by simpa [hasError_eq] using herr
  have htypes : m.data.map (fun d => d.type % 256) = m.data.map (fun d => d.type) :=
    List.map_congr_left (fun d hd => (sendDatum_of_consistent d (hcons d hd)).2.2)
  have hdata : m.data.map sendDatum = m.data.map payloadLayout :=
    List.map_congr_left (fun d hd => (sendDatum_of_consistent d (hcons d hd)).1)
  rw [send_eq_of_noError m he, htypes, hdata]
  simp [wireLayout, addressBytes, addressLength, ha, padSize_eq]

theorem sum_sendDatum_length (l : List OSCData) (hcons : ∀ d ∈ l, d.consistent = true) :
    ((l.map sendDatum).flatten).length = (l.map (fun d => d.bytes + padSize d.bytes)).sum := by
  induction l with
  | nil => rfl
  | cons d l ih =>
    have hd := (sendDatum_of_consistent d (hcons d (List.mem_cons_self d l))).2.1
    have hl := ih (fun e he => hcons e (List.mem_cons_of_mem d he))
    simp only [List.map_cons, List.flatten_cons, List.length_append, List.sum_cons, hd, hl]

/-- C1 (defect): the round trip fails for the message `/a` with the integers 1
and 2. `send` pads the two type tags with three zero bytes, `decode` takes one
zero byte after them as padding and the next two as payload, and the decoded
values are 0 and 65536, two bytes staying in the buffer. -/
theorem roundTrip_twoInts :
    twoIntsMessage.data = [OSCData.ofInt 1, OSCData.ofInt 2]
      ∧ (send twoIntsMessage).1
          = [47, 97, 0, 0, 0, 0, 44, 105, 105, 0, 0, 0, 0, 0, 0, 1, 0, 0, 0, 2]
      ∧ (fill OSCMessage.new (send twoIntsMessage).1).address = some [47, 97]
      ∧ (fill OSCMessage.new (send twoIntsMessage).1).data
          = [OSCData.ofInt 0, OSCData.ofInt 65536]
      ∧ (fill OSCMessage.new (send twoIntsMessage).1).incomingBuffer = [0, 2] := by
  decide

/-- C2: for a message with a non-null address, no aggregate error and values
whose byte length is consistent with their type, `bytes()` returns the number
of bytes `send()` writes. -/
theorem bytes_eq_send_length (m : OSCMessage) (a : List Nat) (ha : m.address = some a)
    (herr : (hasError m).1 = false) (hcons : ∀ d ∈ m.data, d.consistent = true) :
    (bytes m).1 = (send m).1.length := by
  have he : aggregateError m = false := by simpa [hasError_eq] using herr
  rw [bytes_eq, send_eq_of_noError m he]
  simp only [List.length_append, List.length_replicate, List.length_map, List.length_singleton,
    sum_sendDatum_length m.data hcons, addressBytes, addressLength, ha]

theorem bytes_eq_send_length_witness :
    (bytes freqMessage).1 = 24 ∧ (send freqMessage).1.length = 24 :=
  ⟨(bytes_eq_send_length freqMessage _ rfl (by decide) (by decide)).trans (by decide),
    by decide⟩

/-- C3: for a message with address `a`, no aggregate error and values of the
supported types, `send()` writes exactly the address, a zero byte,
`(len(a)+1) mod 4` zero bytes, a comma, the type characters, the type padding
(`(n+1) mod 4`, or 4 when that is 0) and the payload of each value in order. -/
theorem send_wire_layout (m : OSCMessage) (a : List Nat) (ha : m.address = some a)
    (herr : (hasError m).1 = false) (hcons : ∀ d ∈ m.data, d.consistent = true) :
    (send m).1 = a ++ [0] ++ List.replicate ((a.length + 1) % 4) 0 ++ [44]
      ++ m.data.map (fun d => d.type)
      ++ List.replicate (if (m.data.length + 1) % 4 = 0 then 4 else (m.data.length + 1) % 4) 0
      ++ (m.data.map payloadLayout).flatten ∧ (send m).2 = m := by
  have he : aggregateError m = false := by simpa [hasError_eq] using herr
  refine ⟨?_, by rw [send_eq_of_noError m he]⟩
  rw [send_written_of_consistent m a ha herr hcons]
  rfl

theorem send_wire_layout_witness :
    (send freqMessage).1 = [47, 115, 121, 110, 116, 104, 47, 49, 47, 102, 114, 101, 113, 0, 0, 0,
      44, 102, 0, 0, 67, 220, 0, 0] :=
  (send_wire_layout freqMessage _ rfl (by decide) (by decide)).1.trans (by decide)

/-- C4: when the aggregate error of a message is set (its own error code is not
`OSC_OK`, or the error code of one of its values is not `OSC_OK`), `hasError()`
is true and `send()` writes nothing and leaves the message as it was. -/
theorem send_error_containment (m : OSCMessage)
    (h : m.error ≠ .OSC_OK ∨ ∃ d ∈ m.data, d.error ≠ .OSC_OK) :
    (hasError m).1 = true ∧ (send m).1 = [] ∧ (send m).2 = m := by
  have he : aggregateError m = true := (aggregateError_eq_true_iff m).2 h
  rw [hasError_eq, send_of_error m he]
  exact ⟨he, rfl, rfl⟩

theorem send_error_containment_witness :
    (send (add OSCMessage.new (OSCData.ofInt 7))).1 = []
      ∧ (send (add (OSCMessage.withAddress [47, 97]) (OSCData.ofType 105))).1 = [] :=
  ⟨(send_error_containment _ (Or.inl (by decide))).2.1,
    (send_error_containment _ (Or.inr ⟨OSCData.ofType 105, by decide, by decide⟩)).2.1⟩

/-! ## The incoming buffer -/

@[simp] theorem addToIncomingBuffer_data (m : OSCMessage) (b : Nat) :
    (addToIncomingBuffer m b).data = m.data := by
  unfold addToIncomingBuffer; split <;> rfl

@[simp] theorem addToIncomingBuffer_address (m : OSCMessage) (b : Nat) :
    (addToIncomingBuffer m b).address = m.address := by
  unfold addToIncomingBuffer; split <;> rfl

@[simp] theorem addToIncomingBuffer_error (m : OSCMessage) (b : Nat) :
    (addToIncomingBuffer m b).error = m.error := by
  unfold addToIncomingBuffer; split <;> rfl

@[simp] theorem addToIncomingBuffer_decodeState (m : OSCMessage) (b : Nat) :
    (addToIncomingBuffer m b).decodeState = m.decodeState := by
  unfold addToIncomingBuffer; split <;> rfl

@[simp] theorem addToIncomingBuffer_incomingBuffer (m : OSCMessage) (b : Nat) :
    (addToIncomingBuffer m b).incomingBuffer = m.incomingBuffer ++ [b] := by
  unfold addToIncomingBuffer; split <;> rfl

@[simp] theorem addBytes_nil (m : OSCMessage) : addBytes m [] = m := rfl

@[simp] theorem addBytes_cons (m : OSCMessage) (b : Nat) (w : List Nat) :
    addBytes m (b :: w) = addBytes (addToIncomingBuffer m b) w := rfl

@[simp] theorem addBytes_data (m : OSCMessage) (w : List Nat) : (addBytes m w).data = m.data := by
  induction w generalizing m with
  | nil => rfl
  | cons b w ih => simp [ih]

@[simp] theorem addBytes_address (m : OSCMessage) (w : List Nat) :
    (addBytes m w).address = m.address := by
  induction w generalizing m with
  | nil => rfl
  | cons b w ih => simp [ih]

@[simp] theorem addBytes_error (m : OSCMessage) (w : List Nat) :
    (addBytes m w).error = m.error := by
  induction w generalizing m with
  | nil => rfl
  | cons b w ih => simp [ih]

@[simp] theorem addBytes_decodeState (m : OSCMessage) (w : List Nat) :
    (addBytes m w).decodeState = m.decodeState := by
  induction w generalizing m with
  | nil => rfl
  | cons b w ih => simp [ih]

@[simp] theorem addBytes_incomingBuffer (m : OSCMessage) (w : List Nat) :
    (addBytes m w).incomingBuffer = m.incomingBuffer ++ w := by
  induction w generalizing m with
  | nil => simp
  | cons b w ih => simp [ih]

theorem addBytes_snoc (m : OSCMessage) (w : List Nat) (b : Nat) :
    addBytes m (w ++ [b]) = addToIncomingBuffer (addBytes m w) b := by
  simp [addBytes, List.foldl_append]

/-! ## One step of the decoder, state by state -/

theorem fill_nil (m : OSCMessage) : fill m [] = m := rfl

theorem fill_cons (m : OSCMessage) (b : Nat) (bs : List Nat) :
    fill m (b :: bs) = fill (decode m b) bs := rfl

theorem fill_append (m : OSCMessage) (xs ys : List Nat) :
    fill m (xs ++ ys) = fill (fill m xs) ys := by
  simp [fill, List.foldl_append]

theorem decode_STANDBY_slash (m : OSCMessage) (hs : m.decodeState = .STANDBY) :
    decode m 47 = { addToIncomingBuffer m 47 with decodeState := .ADDRESS } := by
  simp [decode, hs]

theorem decode_ADDRESS_nonzero (m : OSCMessage) (b : Nat) (hs : m.decodeState = .ADDRESS)
    (hb : b ≠ 0) : decode m b = addToIncomingBuffer m b := by
  simp [decode, hs, hb]

theorem decode_ADDRESS_zero (m : OSCMessage) (hs : m.decodeState = .ADDRESS) :
    decode m 0 = { decodeAddress (addToIncomingBuffer m 0) with
      decodeState := .ADDRESS_PADDING } := by
  simp [decode, hs]

theorem decode_ADDRESS_PADDING_other (m : OSCMessage) (b : Nat)
    (hs : m.decodeState = .ADDRESS_PADDING) (hb : b ≠ 44) :
    decode m b = addToIncomingBuffer m b := by
  simp [decode, hs, hb]

theorem decode_ADDRESS_PADDING_comma (m : OSCMessage) (hs : m.decodeState = .ADDRESS_PADDING) :
    decode m 44 = { clearIncomingBuffer (addToIncomingBuffer m 44) with
      decodeState := .TYPES } := by
  simp [decode, hs]

theorem decode_TYPES_nonzero (m : OSCMessage) (b : Nat) (hs : m.decodeState = .TYPES)
    (hb : b ≠ 0) : decode m b = decodeType (addToIncomingBuffer m b) b := by
  simp [decode, hs, hb]

theorem decode_DATA (m : OSCMessage) (b : Nat) (hs : m.decodeState = .DATA) :
    decode m b = decodeData (addToIncomingBuffer m b) b := by
  simp [decode, hs]

theorem decode_DATA_PADDING (m : OSCMessage) (b : Nat) (hs : m.decodeState = .DATA_PADDING) :
    decode m b = dataPaddingLoop m.data.length (addToIncomingBuffer m b) := by
  simp [decode, hs, OSCMessage.dataCount]

/-! ## The scans of `decodeData` and of the state `DATA_PADDING` -/

theorem lt_length_of_getElem? {α : Type} {l : List α} {i : Nat} {d : α}
    (h : l[i]? = some d) : i < l.length := by
  by_contra hge
  rw [List.getElem?_eq_none (by omega)] at h
  cases h

theorem decodeDataLoop_first (m : OSCMessage) (b i : Nat) (d : OSCData)
    (hi : m.data[i]? = some d) (he : d.error = .INVALID_OSC)
    (hfirst : ∀ j, j < i → ∀ e, m.data[j]? = some e → e.error ≠ .INVALID_OSC) :
    ∀ (k j : Nat), j ≤ i → i < j + k → decodeDataLoop k j m b = decodeDatum m i d b := by
  intro k
  induction k with
  | zero => intro j h1 h2; omega
  | succ k ih =>
    intro j h1 h2
    rcases Nat.lt_or_ge j i with hlt | hge
    · have hjl : j < m.data.length := lt_trans hlt (lt_length_of_getElem? hi)
      have hj : m.data[j]? = some m.data[j] := List.getElem?_eq_getElem hjl
      have hne := hfirst j hlt _ hj
      simp only [decodeDataLoop, getOSCData_of_getElem? hj, if_neg hne]
      exact ih (j + 1) (by omega) (by omega)
    · have hji : j = i := by omega
      subst hji
      simp only [decodeDataLoop, getOSCData_of_getElem? hi, he, if_true]

theorem decodeData_first (m : OSCMessage) (b i : Nat) (d : OSCData)
    (hi : m.data[i]? = some d) (he : d.error = .INVALID_OSC)
    (hfirst : ∀ j, j < i → ∀ e, m.data[j]? = some e → e.error ≠ .INVALID_OSC) :
    decodeData m b = decodeDatum m i d b :=
  decodeDataLoop_first m b i d hi he hfirst m.data.length 0 (Nat.zero_le i)
    (by have := lt_length_of_getElem? hi; omega)

theorem dataPaddingLoop_last (m : OSCMessage) (i : Nat) (d : OSCData)
    (hi : m.data[i]? = some d) (he : d.error = .OSC_OK)
    (hlast : ∀ j, i < j → ∀ e, m.data[j]? = some e → e.error ≠ .OSC_OK) :
    ∀ (k : Nat), i < k → k ≤ m.data.length →
      dataPaddingLoop k m =
        if m.incomingBufferSize = padSize d.bytes then
          { clearIncomingBuffer m with decodeState := .DATA }
        else m := by
  intro k
  induction k with
  | zero => intro h1 _; omega
  | succ k ih =>
    intro h1 h2
    rcases Nat.lt_or_ge i k with hlt | hge
    · have hk : m.data[k]? = some m.data[k] := List.getElem?_eq_getElem (by omega)
      have hne := hlast k hlt _ hk
      simp only [dataPaddingLoop, getOSCData_of_getElem? hk, if_neg hne]
      exact ih hlt (by omega)
    · have hki : k = i := by omega
      subst hki
      simp only [dataPaddingLoop, getOSCData_of_getElem? hi, he, if_true]

/-! ## Runs of the decoder inside one state -/

theorem fill_ADDRESS (w : List Nat) (hw : ∀ c ∈ w, c ≠ 0) :
    ∀ m : OSCMessage, m.decodeState = .ADDRESS → fill m w = addBytes m w := by
  induction w with
  | nil => intro m _; rfl
  | cons c w ih =>
    intro m hs
    rw [fill_cons, decode_ADDRESS_nonzero m c hs (hw c (List.mem_cons_self c w)), addBytes_cons]
    exact ih (fun x hx => hw x (List.mem_cons_of_mem c hx)) _ (by simp [hs])

theorem fill_ADDRESS_PADDING (w : List Nat) (hw : ∀ c ∈ w, c ≠ 44) :
    ∀ m : OSCMessage, m.decodeState = .ADDRESS_PADDING → fill m w = addBytes m w := by
  induction w with
  | nil => intro m _; rfl
  | cons c w ih =>
    intro m hs
    rw [fill_cons, decode_ADDRESS_PADDING_other m c hs (hw c (List.mem_cons_self c w)),
      addBytes_cons]
    exact ih (fun x hx => hw x (List.mem_cons_of_mem c hx)) _ (by simp [hs])

theorem fill_TYPES (ts : List Nat) (hts : ∀ t ∈ ts, t ≠ 0) :
    ∀ m : OSCMessage, m.decodeState = .TYPES →
      (fill m ts).decodeState = .TYPES ∧ (fill m ts).data = m.data ++ ts.map OSCData.ofType
        ∧ (fill m ts).address = m.address ∧ (fill m ts).error = m.error
        ∧ (fill m ts).incomingBuffer = m.incomingBuffer ++ ts := by
  induction ts with
  | nil => intro m hs; simp [fill_nil, hs]
  | cons t ts ih =>
    intro m hs
    rw [fill_cons, decode_TYPES_nonzero m t hs (hts t (List.mem_cons_self t ts))]
    obtain ⟨h1, h2, h3, h4, h5⟩ := ih (fun x hx => hts x (List.mem_cons_of_mem t hx))
      (decodeType (addToIncomingBuffer m t) t) (by simp [decodeType, add, hs])
    refine ⟨h1, ?_, ?_, ?_, ?_⟩
    · rw [h2]; simp [decodeType, add]
    · rw [h3]; simp [decodeType, add]
    · rw [h4]; simp [decodeType, add]
    · rw [h5]; simp [decodeType, add]

theorem cstr_append_zero (a rest : List Nat) (ha : ∀ c ∈ a, c ≠ 0) :
    cstr (a ++ 0 :: rest) = a := by
  induction a with
  | nil => simp [cstr]
  | cons c a ih =>
    have hc : c ≠ 0 := ha c (List.mem_cons_self c a)
    have := ih (fun x hx => ha x (List.mem_cons_of_mem c hx))
    simp only [cstr] at this ⊢
    simp [List.takeWhile_cons, hc, this]

/-- The header of a packet: the address, its terminator, `k` padding bytes and
the comma. After it the decoder is in `TYPES` with an empty buffer. -/
theorem fill_header (m : OSCMessage) (a : List Nat) (k : Nat)
    (hs : m.decodeState = .STANDBY) (hbuf : m.incomingBuffer = [])
    (ha : a.head? = some 47) (haz : ∀ c ∈ a, c ≠ 0) :
    (fill m (a ++ [0] ++ List.replicate k 0 ++ [44])).decodeState = .TYPES
      ∧ (fill m (a ++ [0] ++ List.replicate k 0 ++ [44])).data = m.data
      ∧ (fill m (a ++ [0] ++ List.replicate k 0 ++ [44])).address = some a
      ∧ (fill m (a ++ [0] ++ List.replicate k 0 ++ [44])).error = .OSC_OK
      ∧ (fill m (a ++ [0] ++ List.replicate k 0 ++ [44])).incomingBuffer = [] := by
  obtain ⟨a', rfl⟩ : ∃ a', a = 47 :: a' := by
    cases a with
    | nil => simp at ha
    | cons c a' => exact ⟨a', by simp at ha; rw [ha]⟩
  have haz' : ∀ c ∈ a', c ≠ 0 := fun c hc => haz c (List.mem_cons_of_mem 47 hc)
  have hzeros : ∀ c ∈ List.replicate k 0, c ≠ 44 := by
    intro c hc
    rw [List.eq_of_mem_replicate hc]
    decide
  simp only [List.cons_append, fill_cons, fill_append, fill_nil]
  rw [decode_STANDBY_slash m hs, fill_ADDRESS a' haz' _ rfl, decode_ADDRESS_zero _ (by simp),
    fill_ADDRESS_PADDING _ hzeros _ rfl, decode_ADDRESS_PADDING_comma _ (by simp)]
  refine ⟨rfl, ?_, ?_, ?_, ?_⟩
  · simp [clearIncomingBuffer, decodeAddress, setAddress]
  · have := cstr_append_zero (47 :: a') [] haz
    simpa [clearIncomingBuffer, decodeAddress, setAddress, hbuf] using this
  · simp [clearIncomingBuffer, decodeAddress, setAddress]
  · simp [clearIncomingBuffer]

theorem fill_header_types (m : OSCMessage) (a ts : List Nat) (k : Nat)
    (hs : m.decodeState = .STANDBY) (hbuf : m.incomingBuffer = []) (hdata : m.data = [])
    (ha : a.head? = some 47) (haz : ∀ c ∈ a, c ≠ 0) (hts : ∀ t ∈ ts, t ≠ 0) :
    (fill m (a ++ [0] ++ List.replicate k 0 ++ [44] ++ ts)).decodeState = .TYPES
      ∧ (fill m (a ++ [0] ++ List.replicate k 0 ++ [44] ++ ts)).data = ts.map OSCData.ofType
      ∧ (fill m (a ++ [0] ++ List.replicate k 0 ++ [44] ++ ts)).address = some a
      ∧ (fill m (a ++ [0] ++ List.replicate k 0 ++ [44] ++ ts)).error = .OSC_OK
      ∧ (fill m (a ++ [0] ++ List.replicate k 0 ++ [44] ++ ts)).incomingBuffer = ts := by
  obtain ⟨h1, h2, h3, h4, h5⟩ := fill_header m a k hs hbuf ha haz
  obtain ⟨g1, g2, g3, g4, g5⟩ := fill_TYPES ts hts _ h1
  rw [fill_append]
  exact ⟨g1, by rw [g2, h2, hdata]; rfl, by rw [g3, h3], by rw [g4, h4], by rw [g5, h5]; rfl⟩

/-- C5: fed into a message in `STANDBY` with an empty buffer and no values, the
bytes of an address `a` (starting with `/`, free of zero bytes), a zero byte,
`k` zero bytes, a comma and the non-zero type tags `ts` leave the address `a`,
the own error `OSC_OK`, one value per tag with that tag as its type and the
error "incomplete", and the state `TYPES`; after every tag the number of values
is the number of tags seen so far. -/
theorem decode_header_types (m : OSCMessage) (a ts : List Nat) (k : Nat)
    (hs : m.decodeState = .STANDBY) (hbuf : m.incomingBuffer = []) (hdata : m.data = [])
    (ha : a.head? = some 47) (haz : ∀ c ∈ a, c ≠ 0) (hts : ∀ t ∈ ts, t ≠ 0) :
    (fill m (a ++ [0] ++ List.replicate k 0 ++ [44] ++ ts)).address = some a
      ∧ (fill m (a ++ [0] ++ List.replicate k 0 ++ [44] ++ ts)).error = .OSC_OK
      ∧ (fill m (a ++ [0] ++ List.replicate k 0 ++ [44] ++ ts)).dataCount = ts.length
      ∧ (fill m (a ++ [0] ++ List.replicate k 0 ++ [44] ++ ts)).data.map (fun d => d.type) = ts
      ∧ (∀ d ∈ (fill m (a ++ [0] ++ List.replicate k 0 ++ [44] ++ ts)).data,
          d.error = .INVALID_OSC)
      ∧ (fill m (a ++ [0] ++ List.replicate k 0 ++ [44] ++ ts)).decodeState = .TYPES
      ∧ ∀ j, j ≤ ts.length →
          (fill m (a ++ [0] ++ List.replicate k 0 ++ [44] ++ ts.take j)).dataCount = j := by
  obtain ⟨h1, h2, h3, h4, _⟩ := fill_header_types m a ts k hs hbuf hdata ha haz hts
  refine ⟨h3, h4, ?_, ?_, ?_, h1, ?_⟩
  · unfold OSCMessage.dataCount
    rw [h2, List.length_map]
  · rw [h2, List.map_map]
    exact (List.map_congr_left (fun t _ => rfl)).trans (List.map_id ts)
  · intro d hd
    rw [h2] at hd
    obtain ⟨t, _, rfl⟩ := List.mem_map.1 hd
    rfl
  · intro j hj
    have hts' : ∀ t ∈ ts.take j, t ≠ 0 := fun t ht => hts t (List.mem_of_mem_take ht)
    obtain ⟨_, g2, _⟩ := fill_header_types m a (ts.take j) k hs hbuf hdata ha haz hts'
    unfold OSCMessage.dataCount
    rw [g2, List.length_map, List.length_take]
    omega

theorem decode_header_types_witness :
    (fill OSCMessage.new ([47, 97] ++ [0] ++ List.replicate 1 0 ++ [44] ++ [105, 84, 115])).address
        = some [47, 97]
      ∧ (fill OSCMessage.new
          ([47, 97] ++ [0] ++ List.replicate 1 0 ++ [44] ++ [105, 84, 115])).dataCount = 3 :=
  have h := decode_header_types OSCMessage.new [47, 97] [105, 84, 115] 1 rfl rfl rfl rfl
    (by decide) (by decide)
  ⟨h.1, h.2.2.1⟩

/-! ## The state `DATA` -/

theorem decode_DATA_first (m : OSCMessage) (b i : Nat) (d : OSCData)
    (hs : m.decodeState = .DATA) (hi : m.data[i]? = some d) (he : d.error = .INVALID_OSC)
    (hfirst : ∀ j, j < i → ∀ e, m.data[j]? = some e → e.error ≠ .INVALID_OSC) :
    decode m b = decodeDatum (addToIncomingBuffer m b) i d b := by
  rw [decode_DATA m b hs]
  exact decodeData_first _ b i d (by simpa using hi) he (by simpa using hfirst)

/-- While the switch of `decodeData` leaves the message alone, the decoder only
buffers. -/
theorem fill_DATA_idle (i : Nat) (d : OSCData) (he : d.error = .INVALID_OSC) :
    ∀ (w : List Nat) (m : OSCMessage), m.decodeState = .DATA → m.data[i]? = some d →
      (∀ j, j < i → ∀ e, m.data[j]? = some e → e.error ≠ .INVALID_OSC) →
      (∀ pre b post, w = pre ++ b :: post →
        decodeDatum (addBytes m (pre ++ [b])) i d b = addBytes m (pre ++ [b])) →
      fill m w = addBytes m w := by
  intro w
  induction w with
  | nil => intro m _ _ _ _; rfl
  | cons c w ih =>
    intro m hs hi hfirst hidle
    have h0 := hidle [] c w rfl
    simp only [List.nil_append, addBytes_cons, addBytes_nil] at h0
    rw [fill_cons, decode_DATA_first m c i d hs hi he hfirst, h0, addBytes_cons]
    refine ih _ (by simpa using hs) (by simpa using hi) (by simpa using hfirst) ?_
    intro pre b post hw
    have := hidle (c :: pre) b post (by rw [hw]; rfl)
    simpa using this

theorem decodeDatum_int (m : OSCMessage) (i b : Nat) (d : OSCData) (ht : d.type = 105) :
    decodeDatum m i d b =
      if m.incomingBuffer.length = 4 then
        clearIncomingBuffer (set m i (OSCData.ofInt (fromBigEndian (m.incomingBuffer.take 4))))
      else m := by
  simp [decodeDatum, ht, OSCMessage.incomingBufferSize]

theorem decodeDatum_time (m : OSCMessage) (i b : Nat) (d : OSCData) (ht : d.type = 116) :
    decodeDatum m i d b =
      if m.incomingBuffer.length = 8 then
        clearIncomingBuffer (set m i (OSCData.ofTime (fromBigEndian (m.incomingBuffer.take 8))))
      else m := by
  simp [decodeDatum, ht, OSCMessage.incomingBufferSize]

theorem fill_DATA_int_wait (m : OSCMessage) (i : Nat) (d : OSCData) (w : List Nat)
    (hs : m.decodeState = .DATA) (hbuf : m.incomingBuffer = [])
    (hi : m.data[i]? = some d) (he : d.error = .INVALID_OSC)
    (hfirst : ∀ j, j < i → ∀ e, m.data[j]? = some e → e.error ≠ .INVALID_OSC)
    (ht : d.type = 105) (hw : w.length < 4) : fill m w = addBytes m w := by
  refine fill_DATA_idle i d he w m hs hi hfirst ?_
  intro pre b post hsplit
  have hlen : pre.length + 1 + post.length = w.length := by simp [hsplit]; omega
  rw [decodeDatum_int _ i b d ht, if_neg]
  simp [hbuf]
  omega

theorem fill_DATA_time_wait (m : OSCMessage) (i : Nat) (d : OSCData) (w : List Nat)
    (hs : m.decodeState = .DATA) (hbuf : m.incomingBuffer = [])
    (hi : m.data[i]? = some d) (he : d.error = .INVALID_OSC)
    (hfirst : ∀ j, j < i → ∀ e, m.data[j]? = some e → e.error ≠ .INVALID_OSC)
    (ht : d.type = 116) (hw : w.length < 8) : fill m w = addBytes m w := by
  refine fill_DATA_idle i d he w m hs hi hfirst ?_
  intro pre b post hsplit
  have hlen : pre.length + 1 + post.length = w.length := by simp [hsplit]; omega
  rw [decodeDatum_time _ i b d ht, if_neg]
  simp [hbuf]
  omega

theorem fill_DATA_int (m : OSCMessage) (i : Nat) (d : OSCData) (w : List Nat) (b : Nat)
    (hs : m.decodeState = .DATA) (hbuf : m.incomingBuffer = [])
    (hi : m.data[i]? = some d) (he : d.error = .INVALID_OSC)
    (hfirst : ∀ j, j < i → ∀ e, m.data[j]? = some e → e.error ≠ .INVALID_OSC)
    (ht : d.type = 105) (hw : w.length = 3) :
    fill m (w ++ [b]) = clearIncomingBuffer
      (set (addBytes m (w ++ [b])) i (OSCData.ofInt (fromBigEndian (w ++ [b])))) := by
  rw [fill_append, fill_DATA_int_wait m i d w hs hbuf hi he hfirst ht (by omega), fill_cons,
    fill_nil, decode_DATA_first _ b i d (by simpa using hs) (by simpa using hi) he
      (by simpa using hfirst), decodeDatum_int _ i b d ht, if_pos (by simp [hbuf, hw])]
  have htake : (w ++ [b]).take 4 = w ++ [b] := List.take_of_length_le (by simp [hw])
  rw [addBytes_snoc]
  simp [hbuf, htake]

theorem fill_DATA_time (m : OSCMessage) (i : Nat) (d : OSCData) (w : List Nat) (b : Nat)
    (hs : m.decodeState = .DATA) (hbuf : m.incomingBuffer = [])
    (hi : m.data[i]? = some d) (he : d.error = .INVALID_OSC)
    (hfirst : ∀ j, j < i → ∀ e, m.data[j]? = some e → e.error ≠ .INVALID_OSC)
    (ht : d.type = 116) (hw : w.length = 7) :
    fill m (w ++ [b]) = clearIncomingBuffer
      (set (addBytes m (w ++ [b])) i (OSCData.ofTime (fromBigEndian (w ++ [b])))) := by
  rw [fill_append, fill_DATA_time_wait m i d w hs hbuf hi he hfirst ht (by omega), fill_cons,
    fill_nil, decode_DATA_first _ b i d (by simpa using hs) (by simpa using hi) he
      (by simpa using hfirst), decodeDatum_time _ i b d ht, if_pos (by simp [hbuf, hw])]
  have htake : (w ++ [b]).take 8 = w ++ [b] := List.take_of_length_le (by simp [hw])
  rw [addBytes_snoc]
  simp [hbuf, htake]

theorem fromBigEndian_four (b0 b1 b2 b3 : Nat) :
    fromBigEndian [b0, b1, b2, b3] = b0 * 256 ^ 3 + b1 * 256 ^ 2 + b2 * 256 + b3 := by
  simp only [fromBigEndian, List.foldl_cons, List.foldl_nil]
  ring

theorem fromBigEndian_eight (b0 b1 b2 b3 b4 b5 b6 b7 : Nat) :
    fromBigEndian [b0, b1, b2, b3, b4, b5, b6, b7] =
      b0 * 256 ^ 7 + b1 * 256 ^ 6 + b2 * 256 ^ 5 + b3 * 256 ^ 4 + b4 * 256 ^ 3 + b5 * 256 ^ 2
        + b6 * 256 + b7 := by
  simp only [fromBigEndian, List.foldl_cons, List.foldl_nil]
  ring

theorem take_length_lt {α : Type} (l : List α) (j n : Nat) (hj : j < n) (hl : l.length = n) :
    (l.take j).length < n := by
  rw [List.length_take]
  omega

/-- C6: with the decoder in `DATA`, an empty buffer and the first incomplete
value of type `i` (resp. `t`), feeding 4 (resp. 8) bytes sets that value to
their big-endian number (read by `getInt` as a two's complement `int32_t`,
resp. by `getTime` as a `uint64_t`), clears its error, empties the buffer and
keeps the state `DATA`, no other value changing; after fewer bytes no value has
changed and the state is `DATA`. -/
theorem decode_fixed_width (m : OSCMessage) (i : Nat) (d : OSCData)
    (hs : m.decodeState = .DATA) (hbuf : m.incomingBuffer = [])
    (hi : m.data[i]? = some d) (he : d.error = .INVALID_OSC)
    (hfirst : ∀ j, j < i → ∀ e, m.data[j]? = some e → e.error ≠ .INVALID_OSC) :
    (d.type = 105 → ∀ b0 b1 b2 b3 : Nat, b0 < 256 → b1 < 256 → b2 < 256 → b3 < 256 →
      (fill m [b0, b1, b2, b3]).data = m.data.set i
          { type := 105, bytes := 4, error := .OSC_OK,
            data := .word32 (b0 * 256 ^ 3 + b1 * 256 ^ 2 + b2 * 256 + b3) }
        ∧ (OSCData.ofInt (b0 * 256 ^ 3 + b1 * 256 ^ 2 + b2 * 256 + b3)).getInt
            = (if b0 * 256 ^ 3 + b1 * 256 ^ 2 + b2 * 256 + b3 < 2 ^ 31
                then ((b0 * 256 ^ 3 + b1 * 256 ^ 2 + b2 * 256 + b3 : Nat) : Int)
                else ((b0 * 256 ^ 3 + b1 * 256 ^ 2 + b2 * 256 + b3 : Nat) : Int) - 2 ^ 32)
        ∧ (fill m [b0, b1, b2, b3]).incomingBuffer = []
        ∧ (fill m [b0, b1, b2, b3]).decodeState = .DATA
        ∧ ∀ j, j < 4 → (fill m ([b0, b1, b2, b3].take j)).data = m.data
            ∧ (fill m ([b0, b1, b2, b3].take j)).decodeState = .DATA)
    ∧ (d.type = 116 → ∀ b0 b1 b2 b3 b4 b5 b6 b7 : Nat, b0 < 256 → b1 < 256 → b2 < 256 →
        b3 < 256 → b4 < 256 → b5 < 256 → b6 < 256 → b7 < 256 →
      (fill m [b0, b1, b2, b3, b4, b5, b6, b7]).data = m.data.set i
          { type := 116, bytes := 8, error := .OSC_OK,
            data := .word64 (b0 * 256 ^ 7 + b1 * 256 ^ 6 + b2 * 256 ^ 5 + b3 * 256 ^ 4
              + b4 * 256 ^ 3 + b5 * 256 ^ 2 + b6 * 256 + b7) }
        ∧ (OSCData.ofTime (b0 * 256 ^ 7 + b1 * 256 ^ 6 + b2 * 256 ^ 5 + b3 * 256 ^ 4
              + b4 * 256 ^ 3 + b5 * 256 ^ 2 + b6 * 256 + b7)).getTime
            = b0 * 256 ^ 7 + b1 * 256 ^ 6 + b2 * 256 ^ 5 + b3 * 256 ^ 4
              + b4 * 256 ^ 3 + b5 * 256 ^ 2 + b6 * 256 + b7
        ∧ (fill m [b0, b1, b2, b3, b4, b5, b6, b7]).incomingBuffer = []
        ∧ (fill m [b0, b1, b2, b3, b4, b5, b6, b7]).decodeState = .DATA
        ∧ ∀ j, j < 8 → (fill m ([b0, b1, b2, b3, b4, b5, b6, b7].take j)).data = m.data
            ∧ (fill m ([b0, b1, b2, b3, b4, b5, b6, b7].take j)).decodeState = .DATA) := by
  constructor
  · intro ht b0 b1 b2 b3 h0 h1 h2 h3
    have hfill := fill_DATA_int m i d [b0, b1, b2] b3 hs hbuf hi he hfirst ht rfl
    simp only [List.cons_append, List.nil_append] at hfill
    rw [hfill, fromBigEndian_four]
    refine ⟨?_, ?_, rfl, ?_, ?_⟩
    · simp [clearIncomingBuffer, set, OSCData.ofInt]
    · have hlt : b0 * 256 ^ 3 + b1 * 256 ^ 2 + b2 * 256 + b3 < 4294967296 := by omega
      simp only [OSCData.getInt, OSCData.ofInt, Payload.asWord32, Nat.mod_eq_of_lt hlt, if_true]
      norm_num
    · simpa [clearIncomingBuffer, set] using hs
    · intro j hj
      rw [fill_DATA_int_wait m i d _ hs hbuf hi he hfirst ht
        (take_length_lt [b0, b1, b2, b3] j 4 hj rfl)]
      exact ⟨by simp, by simpa using hs⟩
  · intro ht b0 b1 b2 b3 b4 b5 b6 b7 h0 h1 h2 h3 h4 h5 h6 h7
    have hfill := fill_DATA_time m i d [b0, b1, b2, b3, b4, b5, b6] b7 hs hbuf hi he hfirst ht rfl
    simp only [List.cons_append, List.nil_append] at hfill
    rw [hfill, fromBigEndian_eight]
    refine ⟨?_, ?_, rfl, ?_, ?_⟩
    · simp [clearIncomingBuffer, set, OSCData.ofTime]
    · have hlt : b0 * 256 ^ 7 + b1 * 256 ^ 6 + b2 * 256 ^ 5 + b3 * 256 ^ 4
          + b4 * 256 ^ 3 + b5 * 256 ^ 2 + b6 * 256 + b7 < 18446744073709551616 := by omega
      simp only [OSCData.getTime, OSCData.ofTime, Payload.asWord64, Nat.mod_eq_of_lt hlt,
        if_true]
    · simpa [clearIncomingBuffer, set] using hs
    · intro j hj
      rw [fill_DATA_time_wait m i d _ hs hbuf hi he hfirst ht
        (take_length_lt [b0, b1, b2, b3, b4, b5, b6, b7] j 8 hj rfl)]
      exact ⟨by simp, by simpa using hs⟩

theorem decode_fixed_width_witness :
    ((fill awaitingInt [255, 255, 255, 254]).data
        = [{ type := 105, bytes := 4, error := .OSC_OK, data := .word32 4294967294 }]
      ∧ (OSCData.ofInt 4294967294).getInt = -2)
    ∧ (fill awaitingTime [0, 0, 0, 0, 0, 0, 1, 2]).data
        = [{ type := 116, bytes := 8, error := .OSC_OK, data := .word64 258 }] :=
  have hi := (decode_fixed_width awaitingInt 0 (OSCData.ofType 105) (by decide) (by decide)
    (by decide) (by decide) (by intro j hj; omega)).1 (by decide) 255 255 255 254
    (by decide) (by decide) (by decide) (by decide)
  have ht := (decode_fixed_width awaitingTime 0 (OSCData.ofType 116) (by decide) (by decide)
    (by decide) (by decide) (by intro j hj; omega)).2 (by decide) 0 0 0 0 0 0 1 2
    (by decide) (by decide) (by decide) (by decide) (by decide) (by decide) (by decide)
    (by decide)
  ⟨⟨hi.1.trans (by decide), hi.2.1.trans (by decide)⟩, ht.1.trans (by decide)⟩

theorem decodeDatum_string (m : OSCMessage) (i b : Nat) (d : OSCData) (ht : d.type = 115) :
    decodeDatum m i d b =
      if b = 0 then
        { clearIncomingBuffer (set m i (OSCData.ofString m.incomingBuffer)) with
          decodeState := .DATA_PADDING }
      else m := by
  simp [decodeDatum, ht]

theorem fill_DATA_string_wait (m : OSCMessage) (i : Nat) (d : OSCData) (w : List Nat)
    (hs : m.decodeState = .DATA)
    (hi : m.data[i]? = some d) (he : d.error = .INVALID_OSC)
    (hfirst : ∀ j, j < i → ∀ e, m.data[j]? = some e → e.error ≠ .INVALID_OSC)
    (ht : d.type = 115) (hw : ∀ c ∈ w, c ≠ 0) : fill m w = addBytes m w := by
  refine fill_DATA_idle i d he w m hs hi hfirst ?_
  intro pre b post hsplit
  have hb : b ≠ 0 := hw b (by rw [hsplit]; simp)
  rw [decodeDatum_string _ i b d ht, if_neg hb]

/-- C7: with the decoder in `DATA`, an empty buffer and the first incomplete
value of type `s`, feeding the non-zero bytes `w` and then a zero byte sets
that value to the string `w` (kept with its terminator, byte length
`len(w) + 1`, error cleared), empties the buffer and moves the decoder to
`DATA_PADDING`; while only bytes of `w` have arrived no value has changed. -/
theorem decode_string (m : OSCMessage) (i : Nat) (d : OSCData) (w : List Nat)
    (hs : m.decodeState = .DATA) (hbuf : m.incomingBuffer = [])
    (hi : m.data[i]? = some d) (he : d.error = .INVALID_OSC)
    (hfirst : ∀ j, j < i → ∀ e, m.data[j]? = some e → e.error ≠ .INVALID_OSC)
    (ht : d.type = 115) (hw : ∀ c ∈ w, c ≠ 0) :
    (fill m (w ++ [0])).data = m.data.set i
        { type := 115, bytes := w.length + 1, error := .OSC_OK, data := .block (w ++ [0]) }
      ∧ cstr (w ++ [0]) = w
      ∧ (fill m (w ++ [0])).incomingBuffer = []
      ∧ (fill m (w ++ [0])).decodeState = .DATA_PADDING
      ∧ ∀ j, j ≤ w.length → (fill m (w.take j)).data = m.data
          ∧ (fill m (w.take j)).decodeState = .DATA := by
  have hc : cstr (w ++ [0]) = w := cstr_append_zero w [] hw
  refine ⟨?_, hc, ?_, ?_, ?_⟩
  · rw [fill_append, fill_DATA_string_wait m i d w hs hi he hfirst ht hw, fill_cons, fill_nil,
      decode_DATA_first _ 0 i d (by simpa using hs) (by simpa using hi) he
        (by simpa using hfirst), decodeDatum_string _ i 0 d ht, if_pos rfl]
    simp [clearIncomingBuffer, set, OSCData.ofString, hbuf, hc]
  · rw [fill_append, fill_DATA_string_wait m i d w hs hi he hfirst ht hw, fill_cons, fill_nil,
      decode_DATA_first _ 0 i d (by simpa using hs) (by simpa using hi) he
        (by simpa using hfirst), decodeDatum_string _ i 0 d ht, if_pos rfl]
    rfl
  · rw [fill_append, fill_DATA_string_wait m i d w hs hi he hfirst ht hw, fill_cons, fill_nil,
      decode_DATA_first _ 0 i d (by simpa using hs) (by simpa using hi) he
        (by simpa using hfirst), decodeDatum_string _ i 0 d ht, if_pos rfl]
  · intro j _
    rw [fill_DATA_string_wait m i d (w.take j) hs hi he hfirst ht
      (fun c hc => hw c (List.mem_of_mem_take hc))]
    exact ⟨by simp, by simpa using hs⟩

theorem decode_string_witness :
    (fill awaitingString ([97, 98, 99] ++ [0])).data
        = [{ type := 115, bytes := 4, error := .OSC_OK, data := .block [97, 98, 99, 0] },
            OSCData.ofType 105]
      ∧ (fill awaitingString ([97, 98, 99] ++ [0])).decodeState = .DATA_PADDING :=
  have h := decode_string awaitingString 0 (OSCData.ofType 115) [97, 98, 99] (by decide)
    (by decide) (by decide) (by decide) (by intro j hj; omega) (by decide) (by decide)
  ⟨h.1.trans (by decide), h.2.2.2.1⟩

/-! ## The state `DATA_PADDING` -/

theorem decode_DATA_PADDING_last (m : OSCMessage) (b i : Nat) (d : OSCData)
    (hs : m.decodeState = .DATA_PADDING) (hi : m.data[i]? = some d) (he : d.error = .OSC_OK)
    (hlast : ∀ j, i < j → ∀ e, m.data[j]? = some e → e.error ≠ .OSC_OK) :
    decode m b =
      if m.incomingBuffer.length + 1 = padSize d.bytes then
        { clearIncomingBuffer (addToIncomingBuffer m b) with decodeState := .DATA }
      else addToIncomingBuffer m b := by
  have hlen := lt_length_of_getElem? hi
  rw [decode_DATA_PADDING m b hs,
    dataPaddingLoop_last (addToIncomingBuffer m b) i d (by simpa using hi) he
      (by simpa using hlast) m.data.length hlen (by simp)]
  simp [OSCMessage.incomingBufferSize]

/-- While the buffered length differs from the padding owed, the decoder only
buffers. -/
theorem fill_DATA_PADDING_idle (i : Nat) (d : OSCData) (he : d.error = .OSC_OK) :
    ∀ (w : List Nat) (m : OSCMessage), m.decodeState = .DATA_PADDING → m.data[i]? = some d →
      (∀ j, i < j → ∀ e, m.data[j]? = some e → e.error ≠ .OSC_OK) →
      (∀ j, 1 ≤ j → j ≤ w.length → m.incomingBuffer.length + j ≠ padSize d.bytes) →
      fill m w = addBytes m w := by
  intro w
  induction w with
  | nil => intro m _ _ _ _; rfl
  | cons c w ih =>
    intro m hs hi hlast hne
    rw [fill_cons, decode_DATA_PADDING_last m c i d hs hi he hlast,
      if_neg (hne 1 le_rfl (by simp)), addBytes_cons]
    refine ih _ (by simpa using hs) (by simpa using hi) (by simpa using hlast) ?_
    intro j h1 h2
    have := hne (j + 1) (by omega) (by simpa using h2)
    simp only [addToIncomingBuffer_incomingBuffer, List.length_append, List.length_singleton]
    omega

/-- A value whose padding is zero keeps the decoder in `DATA_PADDING`. -/
theorem fill_DATA_PADDING_stuck (m : OSCMessage) (i : Nat) (d : OSCData) (bs : List Nat)
    (hs : m.decodeState = .DATA_PADDING) (hi : m.data[i]? = some d) (he : d.error = .OSC_OK)
    (hlast : ∀ j, i < j → ∀ e, m.data[j]? = some e → e.error ≠ .OSC_OK)
    (hpad : padSize d.bytes = 0) : fill m bs = addBytes m bs := by
  refine fill_DATA_PADDING_idle i d he bs m hs hi hlast ?_
  intro j h1 _
  omega

/-- The padding owed, when it is not zero, brings the decoder back to `DATA`
with an empty buffer. -/
theorem fill_DATA_PADDING_exit (m : OSCMessage) (i : Nat) (d : OSCData) (q : List Nat)
    (hs : m.decodeState = .DATA_PADDING) (hbuf : m.incomingBuffer = [])
    (hi : m.data[i]? = some d) (he : d.error = .OSC_OK)
    (hlast : ∀ j, i < j → ∀ e, m.data[j]? = some e → e.error ≠ .OSC_OK)
    (hq : q.length = padSize d.bytes) (hpos : 0 < padSize d.bytes) :
    (fill m q).decodeState = .DATA ∧ (fill m q).incomingBuffer = []
      ∧ (fill m q).data = m.data ∧ (fill m q).address = m.address
      ∧ (fill m q).error = m.error := by
  obtain ⟨q', c, rfl⟩ : ∃ q' c, q = q' ++ [c] := by
    rcases List.eq_nil_or_concat q with h | ⟨q', c, h⟩
    · rw [h] at hq; simp at hq; omega
    · exact ⟨q', c, by simpa using h⟩
  have hlen : q'.length + 1 = padSize d.bytes := by simpa using hq
  rw [fill_append, fill_DATA_PADDING_idle i d he q' m hs hi hlast
    (by intro j h1 h2; rw [hbuf]; simp; omega), fill_cons, fill_nil,
    decode_DATA_PADDING_last _ c i d (by simpa using hs) (by simpa using hi) he
      (by simpa using hlast), if_pos (by simpa [hbuf] using hlen)]
  simp [clearIncomingBuffer]

/-- C8 (defect): after the string `abc` (byte length 4, padding 0) the decoder
is in `DATA_PADDING` with an empty buffer, and it never returns to `DATA`:
whatever bytes follow, the state stays `DATA_PADDING`, the bytes pile up in the
buffer and the integer after the string stays incomplete. -/
theorem dataPadding_stuck_after_abc (bs : List Nat) :
    (fill awaitingString [97, 98, 99, 0]).decodeState = .DATA_PADDING
      ∧ (fill awaitingString [97, 98, 99, 0]).incomingBuffer = []
      ∧ (fill awaitingString [97, 98, 99, 0]).data
          = [{ type := 115, bytes := 4, error := .OSC_OK, data := .block [97, 98, 99, 0] },
              OSCData.ofType 105]
      ∧ padSize 4 = 0
      ∧ (fill awaitingString ([97, 98, 99, 0] ++ bs)).decodeState = .DATA_PADDING
      ∧ (fill awaitingString ([97, 98, 99, 0] ++ bs)).incomingBuffer = bs
      ∧ (fill awaitingString ([97, 98, 99, 0] ++ bs)).data
          = (fill awaitingString [97, 98, 99, 0]).data := by
  have hstuck := fill_DATA_PADDING_stuck (fill awaitingString [97, 98, 99, 0]) 0
    { type := 115, bytes := 4, error := .OSC_OK, data := .block [97, 98, 99, 0] } bs
    (by decide) (by decide) rfl
    (by
      intro j hj e hje
      have h1 : j = 1 := by
        have := lt_length_of_getElem? hje
        have hl : (fill awaitingString [97, 98, 99, 0]).data.length = 2 := by decide
        omega
      subst h1
      have h2 : (fill awaitingString [97, 98, 99, 0]).data[1]? = some (OSCData.ofType 105) := by
        decide
      rw [h2] at hje
      cases hje
      decide)
    (by decide)
  refine ⟨by decide, by decide, by decide, by decide, ?_, ?_, ?_⟩
  · rw [fill_append, hstuck, addBytes_decodeState]; decide
  · rw [fill_append, hstuck, addBytes_incomingBuffer]
    have : (fill awaitingString [97, 98, 99, 0]).incomingBuffer = [] := by decide
    rw [this]; rfl
  · rw [fill_append, hstuck, addBytes_data]

/-! ## Blobs -/

theorem decodeDatum_blob (m : OSCMessage) (i b : Nat) (d : OSCData) (ht : d.type = 98) :
    decodeDatum m i d b =
      if m.incomingBuffer.length > 4 then
        if m.incomingBuffer.length = (fromBigEndian (m.incomingBuffer.take 4) + 4) % 4294967296 then
          if padSize (fromBigEndian (m.incomingBuffer.take 4)) > 0 then
            { clearIncomingBuffer (set m i (OSCData.ofBlob (m.incomingBuffer.drop 4)
                (fromBigEndian (m.incomingBuffer.take 4)))) with decodeState := .DATA_PADDING }
          else
            clearIncomingBuffer (set m i (OSCData.ofBlob (m.incomingBuffer.drop 4)
              (fromBigEndian (m.incomingBuffer.take 4))))
        else m
      else m := by
  simp [decodeDatum, ht, OSCMessage.incomingBufferSize, OSCData.ofBlob]

theorem fromBigEndian_bigEndianBytes_four (n : Nat) (hn : n < 4294967296) :
    fromBigEndian (bigEndianBytes 4 n) = n := by
  simp only [bigEndianBytes, fromBigEndian_four]
  norm_num
  omega

theorem fill_DATA_blob_wait (m : OSCMessage) (i : Nat) (d : OSCData) (len : Nat) (w : List Nat)
    (hs : m.decodeState = .DATA) (hbuf : m.incomingBuffer = [])
    (hi : m.data[i]? = some d) (he : d.error = .INVALID_OSC)
    (hfirst : ∀ j, j < i → ∀ e, m.data[j]? = some e → e.error ≠ .INVALID_OSC)
    (ht : d.type = 98) (hlen : len + 4 < 4294967296) (hw : w.length < len) :
    fill m (bigEndianBytes 4 len ++ w) = addBytes m (bigEndianBytes 4 len ++ w) := by
  refine fill_DATA_idle i d he _ m hs hi hfirst ?_
  intro pre b post hsplit
  have hl : pre.length + 1 + post.length = 4 + w.length := by
    have := congrArg List.length hsplit
    simp [bigEndianBytes_length] at this
    omega
  rw [decodeDatum_blob _ i b d ht]
  simp only [addBytes_incomingBuffer, hbuf, List.nil_append, List.length_append,
    List.length_singleton]
  by_cases h4 : pre.length + 1 > 4
  · have htake : (pre ++ [b]).take 4 = bigEndianBytes 4 len := by
      have h1 : ((pre ++ [b]) ++ post).take 4 = (pre ++ [b]).take 4 :=
        List.take_append_of_le_length (by simp; omega)
      have h2 : (bigEndianBytes 4 len ++ w).take 4 = bigEndianBytes 4 len := by
        rw [List.take_append_of_le_length (by simp [bigEndianBytes_length])]
        exact List.take_of_length_le (by simp [bigEndianBytes_length])
      rw [← h1, List.append_assoc, List.singleton_append, ← hsplit, h2]
    rw [if_pos h4, htake, fromBigEndian_bigEndianBytes_four len (by omega),
      Nat.mod_eq_of_lt hlen, if_neg (by omega)]
  · rw [if_neg h4]

theorem fill_DATA_blob (m : OSCMessage) (i : Nat) (d : OSCData) (p : List Nat)
    (hs : m.decodeState = .DATA) (hbuf : m.incomingBuffer = [])
    (hi : m.data[i]? = some d) (he : d.error = .INVALID_OSC)
    (hfirst : ∀ j, j < i → ∀ e, m.data[j]? = some e → e.error ≠ .INVALID_OSC)
    (ht : d.type = 98) (hp1 : 1 ≤ p.length) (hp2 : p.length + 4 < 4294967296) :
    (fill m (bigEndianBytes 4 p.length ++ p)).data = m.data.set i
        { type := 98, bytes := p.length, error := .OSC_OK, data := .block p }
      ∧ (fill m (bigEndianBytes 4 p.length ++ p)).incomingBuffer = []
      ∧ (fill m (bigEndianBytes 4 p.length ++ p)).decodeState
          = (if p.length % 4 = 0 then .DATA else .DATA_PADDING)
      ∧ (fill m (bigEndianBytes 4 p.length ++ p)).address = m.address
      ∧ (fill m (bigEndianBytes 4 p.length ++ p)).error = m.error := by
  obtain ⟨p', c, rfl⟩ : ∃ p' c, p = p' ++ [c] := by
    rcases List.eq_nil_or_concat p with h | ⟨p', c, h⟩
    · rw [h] at hp1; simp at hp1
    · exact ⟨p', c, by simpa using h⟩
  have hlen : (p' ++ [c]).length = p'.length + 1 := by simp
  have hbuflen : (bigEndianBytes 4 (p'.length + 1) ++ p' ++ [c]).length = p'.length + 1 + 4 := by
    simp [bigEndianBytes_length]; omega
  have htake : (bigEndianBytes 4 (p'.length + 1) ++ p' ++ [c]).take 4
      = bigEndianBytes 4 (p'.length + 1) := by
    rw [List.append_assoc, List.take_append_of_le_length (by simp [bigEndianBytes_length])]
    exact List.take_of_length_le (by simp [bigEndianBytes_length])
  have hdrop : (bigEndianBytes 4 (p'.length + 1) ++ p' ++ [c]).drop 4 = p' ++ [c] := by
    rw [List.append_assoc]
    exact List.drop_left' (bigEndianBytes_length 4 _)
  have hfill : fill m (bigEndianBytes 4 (p' ++ [c]).length ++ (p' ++ [c])) =
      decodeDatum (addBytes m (bigEndianBytes 4 (p'.length + 1) ++ p' ++ [c])) i d c := by
    rw [hlen, ← List.append_assoc, fill_append,
      fill_DATA_blob_wait m i d (p'.length + 1) p' hs hbuf hi he hfirst ht
        (by omega) (by omega), fill_cons, fill_nil,
      decode_DATA_first _ c i d (by simpa using hs) (by simpa using hi) he
        (by simpa using hfirst), ← addBytes_snoc]
  have hfb := fromBigEndian_bigEndianBytes_four (p'.length + 1) (by omega)
  rw [hfill, decodeDatum_blob _ i c d ht]
  simp only [addBytes_incomingBuffer, hbuf, List.nil_append, hbuflen, htake, hdrop, hfb,
    padSize_eq, hlen]
  rw [if_pos (by omega), if_pos (by rw [Nat.mod_eq_of_lt (by omega)])]
  have htk : (p' ++ [c]).take (p'.length + 1) = p' ++ [c] :=
    List.take_of_length_le (by simp)
  by_cases hpad : (p'.length + 1) % 4 = 0
  · rw [if_neg (by omega), if_pos hpad]
    simp [clearIncomingBuffer, set, OSCData.ofBlob, htk, hs]
  · rw [if_pos (by omega), if_neg hpad]
    simp [clearIncomingBuffer, set, OSCData.ofBlob, htk]

/-- C9 (counterexample): after the bytes `00 00 00 03 01 02 03` and one padding
byte the blob is complete but the decoder is in `DATA_PADDING`, not in `DATA`,
the padding byte waiting in the buffer; and after the length word
`00 00 00 00` the blob is still incomplete. -/
theorem blob_one_padding_byte :
    (fill awaitingBlob [0, 0, 0, 3, 1, 2, 3, 0]).data
        = [{ type := 98, bytes := 3, error := .OSC_OK, data := .block [1, 2, 3] }]
      ∧ (fill awaitingBlob [0, 0, 0, 3, 1, 2, 3, 0]).decodeState ≠ .DATA
      ∧ (fill awaitingBlob [0, 0, 0, 3, 1, 2, 3, 0]).decodeState = .DATA_PADDING
      ∧ (fill awaitingBlob [0, 0, 0, 3, 1, 2, 3, 0]).incomingBuffer = [0]
      ∧ (fill awaitingBlob [0, 0, 0, 0]).data = [OSCData.ofType 98]
      ∧ (fill awaitingBlob [0, 0, 0, 0]).incomingBuffer = [0, 0, 0, 0] := by
  decide

/-- C9 (amended): with the decoder in `DATA`, an empty buffer, the first
incomplete value of type `b` and no complete value after it, feeding the
big-endian length word of `L >= 1` (with `4 + L` in the range of `int`), the
`L` payload bytes `p` and `L mod 4` padding bytes `q` yields at that position a
value of type `b` with byte length `L`, payload `p` and error cleared, the
other values unchanged, and the decoder is in `DATA` with an empty buffer. -/
theorem decode_blob (m : OSCMessage) (i : Nat) (d : OSCData) (p q : List Nat)
    (hs : m.decodeState = .DATA) (hbuf : m.incomingBuffer = [])
    (hi : m.data[i]? = some d) (he : d.error = .INVALID_OSC)
    (hfirst : ∀ j, j < i → ∀ e, m.data[j]? = some e → e.error ≠ .INVALID_OSC)
    (hlast : ∀ j, i < j → ∀ e, m.data[j]? = some e → e.error ≠ .OSC_OK)
    (ht : d.type = 98) (hp1 : 1 ≤ p.length) (hp2 : p.length + 4 < 2147483648)
    (hq : q.length = p.length % 4) :
    (fill m (bigEndianBytes 4 p.length ++ p ++ q)).data = m.data.set i
        { type := 98, bytes := p.length, error := .OSC_OK, data := .block p }
      ∧ (fill m (bigEndianBytes 4 p.length ++ p ++ q)).decodeState = .DATA
      ∧ (fill m (bigEndianBytes 4 p.length ++ p ++ q)).incomingBuffer = [] := by
  obtain ⟨h1, h2, h3, _, _⟩ :=
    fill_DATA_blob m i d p hs hbuf hi he hfirst ht hp1 (by omega)
  rw [fill_append]
  by_cases hpad : p.length % 4 = 0
  · have hq0 : q = [] := List.eq_nil_of_length_eq_zero (by omega)
    subst hq0
    rw [if_pos hpad] at h3
    exact ⟨h1, h3, h2⟩
  · rw [if_neg hpad] at h3
    have hil := lt_length_of_getElem? hi
    obtain ⟨g1, g2, g3, _, _⟩ := fill_DATA_PADDING_exit
      (fill m (bigEndianBytes 4 p.length ++ p)) i
      { type := 98, bytes := p.length, error := .OSC_OK, data := .block p } q h3 h2
      (by rw [h1]; exact List.getElem?_set_self hil) rfl
      (by
        intro j hj e hje
        rw [h1, List.getElem?_set_ne (by omega)] at hje
        exact hlast j hj e hje)
      (by rw [padSize_eq]; exact hq)
      (by rw [padSize_eq]; show 0 < p.length % 4; omega)
    exact ⟨by rw [g3, h1], g1, g2⟩

theorem decode_blob_witness :
    (fill awaitingBlob [0, 0, 0, 3, 1, 2, 3, 0, 0, 0]).data
        = [{ type := 98, bytes := 3, error := .OSC_OK, data := .block [1, 2, 3] }]
      ∧ (fill awaitingBlob [0, 0, 0, 3, 1, 2, 3, 0, 0, 0]).decodeState = .DATA
      ∧ (fill awaitingBlob [0, 0, 0, 3, 1, 2, 3, 0, 0, 0]).incomingBuffer = [] :=
  have h := decode_blob awaitingBlob 0 (OSCData.ofType 98) [1, 2, 3] [0, 0, 0] (by decide)
    (by decide) (by decide) (by decide) (by intro j hj; omega)
    (by
      intro j hj e hje
      have := lt_length_of_getElem? hje
      have hl : awaitingBlob.data.length = 1 := by decide
      omega)
    (by decide) (by decide) (by decide) (by decide)
  ⟨h.1.trans (by decide), h.2.1, h.2.2⟩

/-- For a string or a blob `send` writes `datum->bytes` bytes of the stored
block and `padSize(datum->bytes)` zero bytes, and nothing else. -/
theorem sendDatum_block (d : OSCData) (ht : d.type = 115 ∨ d.type = 98) :
    sendDatum d = d.data.asBlock.take d.bytes ++ List.replicate (d.bytes % 4) 0 := by
  unfold sendDatum
  rw [if_pos ht, padSize_eq]

theorem sendDatum_block_length_le (d : OSCData) (ht : d.type = 115 ∨ d.type = 98) :
    (sendDatum d).length ≤ d.bytes + d.bytes % 4 := by
  rw [sendDatum_block d ht, List.length_append, List.length_take, List.length_replicate]
  omega

/-- C10 (counterexample): a blob value of byte length 3 is written as at most
3 + 3 bytes, whatever its stored block holds, so never as
`00 00 00 03 01 02 03 00 00 00`; the message `/b` with the blob `01 02 03` of
byte length 3 is written as `2F 62 00 00 00 00 2C 62 00 00 01 02 03 00 00 00`. -/
theorem blob_byteLength_three :
    (send blobMessage).1 = [47, 98, 0, 0, 0, 0, 44, 98, 0, 0, 1, 2, 3, 0, 0, 0]
      ∧ blobMessage.data
          = [{ type := 98, bytes := 3, error := .OSC_OK, data := .block [1, 2, 3] }]
      ∧ sendDatum { type := 98, bytes := 3, error := .OSC_OK,
                    data := .block [0, 0, 0, 3, 1, 2, 3] } = [0, 0, 0, 0, 0, 0]
      ∧ (∀ d : OSCData, d.type = 98 → d.bytes = 3 →
          sendDatum d ≠ [0, 0, 0, 3, 1, 2, 3, 0, 0, 0]) := by
  refine ⟨by decide, by decide, by decide, ?_⟩
  intro d ht hb h
  have hl := sendDatum_block_length_le d (Or.inr ht)
  rw [h, hb] at hl
  simp at hl

/-- C10 (amended): for a blob value `send()` writes `byteLength` bytes of the
stored block and `byteLength mod 4` zero bytes. In a message with a non-null
address and no aggregate error, for the blob value at position `i` whose stored
block is the 4-byte big-endian length of `p` followed by `p`, with byte length
`len(p) + 4`, the bytes written for that value, after the header and the
values before it, are the length word, the bytes of `p` and `len(p) mod 4` zero
bytes. -/
theorem send_blob (m : OSCMessage) (a : List Nat) (i : Nat) (d : OSCData) (p : List Nat)
    (ha : m.address = some a) (herr : (hasError m).1 = false) (hi : m.data[i]? = some d)
    (ht : d.type = 98) (hb : d.bytes = p.length + 4)
    (hd : d.data = .block (bigEndianBytes 4 p.length ++ p)) :
    sendDatum d = d.data.asBlock.take d.bytes ++ List.replicate (d.bytes % 4) 0
      ∧ sendDatum d = bigEndianBytes 4 p.length ++ p ++ List.replicate (p.length % 4) 0
      ∧ (send m).1 = a ++ [0] ++ List.replicate ((a.length + 1) % 4) 0 ++ [44]
          ++ m.data.map (fun d => d.type % 256)
          ++ List.replicate
              (if (m.data.length + 1) % 4 = 0 then 4 else (m.data.length + 1) % 4) 0
          ++ ((m.data.take i).map sendDatum).flatten
          ++ (bigEndianBytes 4 p.length ++ p ++ List.replicate (p.length % 4) 0)
          ++ ((m.data.drop (i + 1)).map sendDatum).flatten := by
  have hs : sendDatum d = bigEndianBytes 4 p.length ++ p ++ List.replicate (p.length % 4) 0 := by
    rw [sendDatum_block d (Or.inr ht), hd, hb]
    have hlen : (bigEndianBytes 4 p.length ++ p).length = p.length + 4 := by
      rw [List.length_append, bigEndianBytes_length]; omega
    have hmod : (p.length + 4) % 4 = p.length % 4 := by omega
    rw [hmod]
    show (bigEndianBytes 4 p.length ++ p).take (p.length + 4) ++ _ = _
    rw [List.take_of_length_le (by omega)]
  refine ⟨sendDatum_block d (Or.inr ht), hs, ?_⟩
  have he : aggregateError m = false := by simpa [hasError_eq] using herr
  have hlt : i < m.data.length := lt_length_of_getElem? hi
  have hsplit : m.data = m.data.take i ++ d :: m.data.drop (i + 1) := by
    have hget : m.data[i] = d := by
      have := List.getElem?_eq_getElem hlt
      rw [this] at hi
      exact Option.some.inj hi
    rw [← hget]
    exact (List.take_append_drop i m.data).symm.trans (by rw [List.drop_eq_getElem_cons hlt])
  have hflat : (m.data.map sendDatum).flatten
      = ((m.data.take i).map sendDatum).flatten
        ++ (bigEndianBytes 4 p.length ++ p ++ List.replicate (p.length % 4) 0)
        ++ ((m.data.drop (i + 1)).map sendDatum).flatten := by
    conv_lhs => rw [hsplit]
    rw [List.map_append, List.map_cons, List.flatten_append, List.flatten_cons, hs]
    simp only [List.append_assoc]
  rw [send_eq_of_noError m he, hflat]
  simp only [addressBytes, addressLength, ha, padSize_eq, typePadding, List.append_assoc]

theorem send_blob_witness :
    (send wordBlobMessage).1
      = [47, 98, 0, 0, 0, 0, 44, 98, 0, 0, 0, 0, 0, 3, 1, 2, 3, 0, 0, 0] :=
  (send_blob wordBlobMessage [47, 98] 0
    { type := 98, bytes := 7, error := .OSC_OK, data := .block [0, 0, 0, 3, 1, 2, 3] }
    [1, 2, 3] (by decide) (by decide) (by decide) (by decide) (by decide)
    (by decide)).2.2.trans (by decide)

/-! ## Errors and the index-based getters -/

/-- C12: `hasError()` returns true exactly when the own error code of the
message is not `OSC_OK` or the error code of one of its values is not `OSC_OK`,
and it leaves every field of the message as it was. -/
theorem hasError_aggregate (m : OSCMessage) :
    ((hasError m).1 = true ↔ (m.error ≠ .OSC_OK ∨ ∃ d ∈ m.data, d.error ≠ .OSC_OK))
      ∧ (hasError m).2 = m := by
  rw [hasError_eq]
  exact ⟨aggregateError_eq_true_iff m, rfl⟩

theorem getOSCData_of_le (m : OSCMessage) (position : Nat) (h : m.dataCount ≤ position) :
    getOSCData m position = (none, { m with error := .INDEX_OUT_OF_BOUNDS }) := by
  simp [getOSCData, Nat.not_lt.2 h]

theorem hasError_of_error_ne (m : OSCMessage) (h : m.error ≠ .OSC_OK) :
    hasError m = (true, m) := by
  rw [hasError_eq, (aggregateError_eq_true_iff m).2 (Or.inl h)]

/-- C13: for a position at or past `getDataCount()`, every index-based getter
returns its zero/default value, `testType` returns false, and the message is
left with the own error `INDEX_OUT_OF_BOUNDS` and every other field (address,
values, decode state, buffer) unchanged. -/
theorem getters_out_of_bounds (m : OSCMessage) (position : Nat)
    (h : getDataCount m ≤ position) :
    getInt m position = (0, { m with error := .INDEX_OUT_OF_BOUNDS })
      ∧ getTime m position = (0, { m with error := .INDEX_OUT_OF_BOUNDS })
      ∧ getFloat m position = (0, { m with error := .INDEX_OUT_OF_BOUNDS })
      ∧ getDouble m position = (0, { m with error := .INDEX_OUT_OF_BOUNDS })
      ∧ (∀ bufferSize, getString m position bufferSize
          = ((0, []), { m with error := .INDEX_OUT_OF_BOUNDS }))
      ∧ (∀ bufferSize, getBlob m position bufferSize
          = ((0, []), { m with error := .INDEX_OUT_OF_BOUNDS }))
      ∧ getType m position = (0, { m with error := .INDEX_OUT_OF_BOUNDS })
      ∧ getDataLength m position = (0, { m with error := .INDEX_OUT_OF_BOUNDS })
      ∧ (∀ type, testType m position type
          = (false, { m with error := .INDEX_OUT_OF_BOUNDS })) := by
  have hg := getOSCData_of_le m position h
  have he : hasError { m with error := OSCErrorCode.INDEX_OUT_OF_BOUNDS }
      = (true, { m with error := .INDEX_OUT_OF_BOUNDS }) :=
    hasError_of_error_ne _ (by simp)
  refine ⟨?_, ?_, ?_, ?_, ?_, ?_, ?_, ?_, ?_⟩
  · simp only [getInt, hg, he]
  · simp only [getTime, hg, he]
  · simp only [getFloat, hg, he]
  · simp only [getDouble, hg, he]
  · intro bufferSize; simp only [getString, hg, he]
  · intro bufferSize; simp only [getBlob, hg, he]
  · simp [getType, hg, he]
  · simp only [getDataLength, hg, he]
  · intro type; simp only [testType, hg, he]

theorem getters_out_of_bounds_witness :
    getInt twoIntsMessage 2 = (0, { twoIntsMessage with error := .INDEX_OUT_OF_BOUNDS })
      ∧ (getInt twoIntsMessage 1).1 = 2 :=
  ⟨(getters_out_of_bounds twoIntsMessage 2 (by decide)).1, by decide⟩

/-! ## The padding formula -/

/-- C16: `padSize(n)` is `n mod 4`, a value below 4; the type padding computed
by `bytes()` and by `send()` for `k` values is `(k + 1) mod 4`, or 4 when that
is 0, a value from 1 to 4; `bytes()` counts that many bytes for it and `send()`
writes that many zero bytes after the type characters. -/
theorem padding_formula (n k : Nat) :
    padSize n = n % 4 ∧ padSize n < 4
      ∧ (if padSize (k + 1) = 0 then 4 else padSize (k + 1))
          = (if (k + 1) % 4 = 0 then 4 else (k + 1) % 4)
      ∧ 1 ≤ (if padSize (k + 1) = 0 then 4 else padSize (k + 1))
      ∧ (if padSize (k + 1) = 0 then 4 else padSize (k + 1)) ≤ 4
      ∧ (∀ m : OSCMessage, (bytes m).1 = addressLength m + 1 + padSize (addressLength m + 1) + 1
          + m.dataCount + (if padSize (m.dataCount + 1) = 0 then 4 else padSize (m.dataCount + 1))
          + (m.data.map (fun d => d.bytes + padSize d.bytes)).sum)
      ∧ (∀ m : OSCMessage, (hasError m).1 = false →
          (send m).1 = addressBytes m ++ List.replicate (padSize (addressLength m + 1)) 0 ++ [44]
            ++ m.data.map (fun d => d.type % 256)
            ++ List.replicate
                (if padSize (m.dataCount + 1) = 0 then 4 else padSize (m.dataCount + 1)) 0
            ++ (m.data.map sendDatum).flatten) := by
  have hk : (if padSize (k + 1) = 0 then 4 else padSize (k + 1))
      = (if (k + 1) % 4 = 0 then 4 else (k + 1) % 4) := by simp only [padSize_eq]
  refine ⟨padSize_eq n, ?_, hk, ?_, ?_, ?_, ?_⟩
  · rw [padSize_eq]; omega
  · rw [hk]; split <;> omega
  · rw [hk]; split <;> omega
  · intro m
    rw [bytes_eq]
    simp only [typePadding, padSize_eq, OSCMessage.dataCount]
  · intro m herr
    have he : aggregateError m = false := by simpa [hasError_eq] using herr
    rw [send_eq_of_noError m he]
    simp only [typePadding, padSize_eq, OSCMessage.dataCount]

theorem padding_formula_witness :
    padSize 7 = 3 ∧ (send freqMessage).1.length = 24 :=
  have h := padding_formula 7 1
  ⟨h.1.trans (by decide), (congrArg List.length (h.2.2.2.2.2.2 freqMessage (by decide))).trans
    (by decide)⟩

/-! ## `empty` -/

theorem emptyLoop_eq (m : OSCMessage) :
    ∀ (k i : Nat), i + k ≤ m.data.length → emptyLoop k i m = m := by
  intro k
  induction k with
  | zero => intro i _; rfl
  | succ k ih =>
    intro i h
    have hi : m.data[i]? = some m.data[i] := List.getElem?_eq_getElem (by omega)
    simp only [emptyLoop, getOSCData_of_getElem? hi]
    exact ih (i + 1) (by omega)

theorem empty_eq (m : OSCMessage) :
    empty m = { m with error := .OSC_OK, data := [], incomingBuffer := [],
                       incomingBufferAlloc := 16, incomingBufferFree := 16 } := by
  unfold empty
  simp only [OSCMessage.dataCount]
  rw [emptyLoop_eq _ m.data.length 0 (by simp)]
  rfl

/-- C17: after `empty()` the value count is 0, the own error code is `OSC_OK`,
`hasError()` is false and the incoming buffer is empty (size 0, 16 bytes
allocated); the values are dropped whatever they were. -/
theorem empty_postcondition (m : OSCMessage) :
    getDataCount (empty m) = 0 ∧ (empty m).data = [] ∧ getError (empty m) = .OSC_OK
      ∧ (hasError (empty m)).1 = false
      ∧ (empty m).incomingBufferSize = 0 ∧ (empty m).incomingBuffer = []
      ∧ (empty m).incomingBufferFree = 16 ∧ (empty m).incomingBufferAlloc = 16 := by
  rw [hasError_eq, empty_eq]
  simp [getDataCount, getError, OSCMessage.dataCount, OSCMessage.incomingBufferSize,
    aggregateError]

/-! ## Boolean values in the decoder -/

theorem decodeDatum_bool (m : OSCMessage) (i b : Nat) (d : OSCData)
    (ht : d.type = 84 ∨ d.type = 70) : decodeDatum m i d b = m := by
  rcases ht with ht | ht <;> simp [decodeDatum, ht]

/-- While the first incomplete value is a boolean, `decodeData` does nothing:
the decoder only buffers. -/
theorem fill_DATA_bool_stuck (m : OSCMessage) (i : Nat) (d : OSCData) (bs : List Nat)
    (hs : m.decodeState = .DATA)
    (hi : m.data[i]? = some d) (he : d.error = .INVALID_OSC)
    (hfirst : ∀ j, j < i → ∀ e, m.data[j]? = some e → e.error ≠ .INVALID_OSC)
    (ht : d.type = 84 ∨ d.type = 70) : fill m bs = addBytes m bs := by
  refine fill_DATA_idle i d he bs m hs hi hfirst ?_
  intro pre b post _
  exact decodeDatum_bool _ i b d ht

theorem decodeWith_ofType (m : OSCMessage) (b : Nat) :
    decodeWith OSCData.ofType m b = decode m b := rfl

theorem fillWith_ofType (m : OSCMessage) (bs : List Nat) :
    fillWith OSCData.ofType m bs = fill m bs := rfl

theorem isLiteral_cons (p : Nat) (ps : List Nat) :
    isLiteral (p :: ps) = true ↔ (p ≠ 42 ∧ p ≠ 63 ∧ p ≠ 91 ∧ p ≠ 123) ∧ isLiteral ps = true := by
  simp [isLiteral, and_assoc]

/-- The scan of the matcher over a pattern without wildcard compares the two
strings character by character. -/
theorem oscMatchLoop_literal :
    ∀ (second first : List Nat) (fuel fo so : Nat), isLiteral second = true →
      second.length < fuel →
      oscMatchLoop fuel first second fo so =
        if first.take second.length = second then
          { ret := if first.length = second.length then 3 else 1,
            first_offset := fo + second.length, second_offset := so + second.length }
        else if second.take first.length = first then
          { ret := 2, first_offset := fo + first.length, second_offset := so + first.length }
        else { ret := 0, first_offset := 0, second_offset := 0 } := by
  intro second
  induction second with
  | nil =>
    intro first fuel fo so _ hf
    obtain ⟨k, rfl⟩ : ∃ k, fuel = k + 1 := ⟨fuel - 1, by simp at hf; omega⟩
    cases first with
    | nil => simp [oscMatchLoop]
    | cons a rest => simp [oscMatchLoop]
  | cons p ps ih =>
    intro first fuel fo so hl hf
    obtain ⟨k, rfl⟩ : ∃ k, fuel = k + 1 := ⟨fuel - 1, by simp at hf; omega⟩
    obtain ⟨⟨h42, h63, h91, h123⟩, hps⟩ := (isLiteral_cons p ps).1 hl
    have hk : ps.length < k := by simp at hf; omega
    cases first with
    | nil => simp [oscMatchLoop, h42]
    | cons a rest =>
      simp only [oscMatchLoop, if_neg h42, if_neg h63, if_neg h91, if_neg h123]
      by_cases hpa : p = a
      · subst hpa
        rw [if_pos rfl, ih rest k (fo + 1) (so + 1) hps hk]
        simp only [List.length_cons, List.take_succ_cons, List.cons.injEq, true_and,
          Nat.add_right_cancel_iff]
        split_ifs <;> simp <;> omega
      · rw [if_neg hpa]
        have h1 : ¬ (a :: rest).take (p :: ps).length = p :: ps := by
          simp [List.take_succ_cons]; intro h; exact absurd h.symm hpa
        have h2 : ¬ (p :: ps).take (a :: rest).length = a :: rest := by
          simp [List.take_succ_cons]; intro h; exact absurd h hpa
        rw [if_neg h1, if_neg h2]

theorem osc_match_literal (first second : List Nat) (hl : isLiteral second = true) :
    osc_match first second =
      if first.take second.length = second then
        { ret := if first.length = second.length then 3 else 1,
          first_offset := second.length, second_offset := second.length }
      else if second.take first.length = first then
        { ret := 2, first_offset := first.length, second_offset := first.length }
      else { ret := 0, first_offset := 0, second_offset := 0 } := by
  unfold osc_match
  rw [oscMatchLoop_literal second first _ 0 0 hl (by omega)]
  simp only [Nat.zero_add]

theorem osc_match_literal_ret (first second : List Nat) (hl : isLiteral second = true) :
    (osc_match first second).ret = 3 ↔ first = second := by
  rw [osc_match_literal first second hl]
  constructor
  · intro h
    by_cases h1 : first.take second.length = second
    · by_cases h2 : first.length = second.length
      · rw [List.take_of_length_le (Nat.le_of_eq h2)] at h1
        exact h1
      · simp [h1, h2] at h
    · by_cases h3 : second.take first.length = first
      · simp [h1, h3] at h
      · simp [h1, h3] at h
  · intro h
    subst h
    simp

theorem getD_terminated_eq_sep (a : List Nat) (i : Nat) :
    (a ++ [0]).getD i 0 = 47 ↔ a[i]? = some 47 := by
  rw [List.getD_eq_getElem?_getD]
  by_cases h : i < a.length
  · rw [List.getElem?_append_left h]
    cases hx : a[i]? with
    | none => simp
    | some x => simp
  · have hn : a[i]? = none := List.getElem?_eq_none (by omega)
    rw [hn]
    by_cases h2 : i = a.length
    · subst h2; simp
    · have : (a ++ [0])[i]? = none := List.getElem?_eq_none (by simp; omega)
      rw [this]; simp

theorem matchSegment_literal (m : OSCMessage) (a pattern : List Nat) (addr_offset : Nat)
    (ha : m.address = some a) (hoff : addr_offset ≤ a.length)
    (hl : isLiteral pattern = true) :
    matchSegment osc_match m pattern addr_offset =
      if (a.drop addr_offset).take pattern.length = pattern
          ∧ (a.length = addr_offset + pattern.length
            ∨ (0 < pattern.length ∧ a[addr_offset + pattern.length]? = some 47)) then
        pattern.length
      else 0 := by
  have hfrom : addressFrom m addr_offset = a.drop addr_offset := by simp [addressFrom, ha]
  have hchar : ∀ i, addressChar m i = (a ++ [0]).getD i 0 := by
    intro i; simp [addressChar, ha]
  have hlen : (a.drop addr_offset).length = a.length - addr_offset := List.length_drop _ _
  have hr := osc_match_literal (a.drop addr_offset) pattern hl
  unfold matchSegment
  rw [hfrom]
  by_cases h1 : (a.drop addr_offset).take pattern.length = pattern
  · rw [if_pos h1] at hr
    by_cases h2 : (a.drop addr_offset).length = pattern.length
    · rw [if_pos h2] at hr
      have h2' : a.length = addr_offset + pattern.length := by omega
      rw [hr]
      simp [h1, h2']
    · rw [if_neg h2] at hr
      have h2' : ¬ a.length = addr_offset + pattern.length := by omega
      rw [hr]
      simp only [hchar, getD_terminated_eq_sep]
      simp [h1, h2']
  · rw [if_neg h1] at hr
    by_cases h2 : pattern.take (a.drop addr_offset).length = a.drop addr_offset
    · rw [if_pos h2] at hr
      rw [hr]
      have hn : a[addr_offset + (a.drop addr_offset).length]? = none :=
        List.getElem?_eq_none (by omega)
      simp only [hchar, getD_terminated_eq_sep, hn]
      simp [h1]
    · rw [if_neg h2] at hr
      rw [hr]
      simp [h1]

theorem length_takeWhile_le {α : Type} (f : α → Bool) (l : List α) :
    (l.takeWhile f).length ≤ l.length := by
  induction l with
  | nil => simp
  | cons x xs ih =>
    rw [List.takeWhile_cons]
    split
    · simp only [List.length_cons]; omega
    · simp

/-- The matcher never reports more consumed characters of its first string than
that string has. -/
theorem oscMatchLoop_first_offset_le :
    ∀ (fuel : Nat) (first second : List Nat) (fo so : Nat),
      (oscMatchLoop fuel first second fo so).first_offset ≤ fo + first.length := by
  intro fuel
  induction fuel with
  | zero => intro first second fo so; simp [oscMatchLoop]
  | succ k ih =>
    intro first second fo so
    cases second with
    | nil => cases first <;> simp [oscMatchLoop]
    | cons p ps =>
      unfold oscMatchLoop
      by_cases h42 : p = 42
      · simp only [if_pos h42]
        split
        · refine (ih _ _ _ _).trans ?_
          have := length_takeWhile_le (fun c => c != 47) first
          rw [List.length_drop]
          omega
        · simp
      · simp only [if_neg h42]
        cases first with
        | nil => simp
        | cons a rest =>
          simp only []
          split_ifs
          · exact (ih _ _ _ _).trans (by simp only [List.length_cons]; omega)
          · simp
          · exact (ih _ _ _ _).trans (by simp only [List.length_cons]; omega)
          · simp
          · split
            · rename_i alt hfind
              have hp := List.find?_some hfind
              have hal : alt.length ≤ (a :: rest).length := by
                have h := congrArg List.length (beq_iff_eq.1 hp)
                rw [List.length_take] at h
                omega
              refine (ih _ _ _ _).trans ?_
              rw [List.length_drop]
              omega
            · simp
          · exact (ih _ _ _ _).trans (by simp only [List.length_cons]; omega)
          · simp

theorem osc_match_first_offset_le (first second : List Nat) :
    (osc_match first second).first_offset ≤ first.length := by
  unfold osc_match
  exact (oscMatchLoop_first_offset_le _ first second 0 0).trans (by omega)

theorem addressFrom_of_address (m : OSCMessage) (a : List Nat) (addr_offset : Nat)
    (ha : m.address = some a) : addressFrom m addr_offset = a.drop addr_offset := by
  simp [addressFrom, ha]

theorem addressChar_of_address (m : OSCMessage) (a : List Nat) (index : Nat)
    (ha : m.address = some a) : addressChar m index = (a ++ [0]).getD index 0 := by
  simp [addressChar, ha]

/-- C14: for a message with the address `a` and an offset within it, and for
every matcher, `fullMatch(pattern, offset)` is true exactly when the matcher
reports 3 (both strings exhausted) for the address from `offset` on and the
pattern; `dispatch` then calls the handler once, with the message, and returns
true, and otherwise does not call it and returns false. With the matcher of
the specification a pattern without wildcard full-matches exactly when it is
the address from `offset` on: `/a/b` full-matches the address `/a/b` and
neither `/a/b/c` nor `/a`; it full-matches `/x/a/b` at offset 2 and not at
offset 0; and the patterns `/a/*`, `/*/b`, `/a/?`, `/a/[a-c]` and `/a/{b,c}` of
the caller full-match the address `/a/b`, while `/*` and `/a/[!a-c]` do not,
nor the pattern `/a/b` an address `/a/*`. -/
theorem fullMatch_dispatch {σ : Type} (osc_match' : List Nat → List Nat → MatchResult)
    (m : OSCMessage) (a pattern : List Nat) (callback : OSCMessage → σ → OSCMessage × σ)
    (addr_offset : Nat) (s : σ) (ha : m.address = some a) (_hoff : addr_offset ≤ a.length) :
    (fullMatch osc_match' m pattern addr_offset = true
        ↔ (osc_match' (a.drop addr_offset) pattern).ret = 3)
      ∧ ((osc_match' (a.drop addr_offset) pattern).ret = 3 →
          dispatch osc_match' m pattern callback addr_offset s = (true, callback m s))
      ∧ ((osc_match' (a.drop addr_offset) pattern).ret ≠ 3 →
          dispatch osc_match' m pattern callback addr_offset s = (false, m, s))
      ∧ (isLiteral pattern = true →
          (fullMatch osc_match m pattern addr_offset = true ↔ a.drop addr_offset = pattern)
            ∧ (a.drop addr_offset = pattern →
                dispatch osc_match m pattern callback addr_offset s = (true, callback m s))
            ∧ (a.drop addr_offset ≠ pattern →
                dispatch osc_match m pattern callback addr_offset s = (false, m, s)))
      ∧ (fullMatch osc_match (OSCMessage.withAddress [47, 97, 47, 98]) [47, 97, 47, 98] 0 = true
        ∧ fullMatch osc_match (OSCMessage.withAddress [47, 97, 47, 98, 47, 99])
            [47, 97, 47, 98] 0 = false
        ∧ fullMatch osc_match (OSCMessage.withAddress [47, 97]) [47, 97, 47, 98] 0 = false)
      ∧ (fullMatch osc_match (OSCMessage.withAddress [47, 120, 47, 97, 47, 98])
            [47, 97, 47, 98] 2 = true
        ∧ fullMatch osc_match (OSCMessage.withAddress [47, 120, 47, 97, 47, 98])
            [47, 97, 47, 98] 0 = false
        ∧ fullMatch osc_match (OSCMessage.withAddress [47, 120, 47, 97, 47, 98])
            [47, 98] 4 = true)
      ∧ (fullMatch osc_match (OSCMessage.withAddress [47, 97, 47, 98]) [47, 97, 47, 42] 0 = true
        ∧ fullMatch osc_match (OSCMessage.withAddress [47, 97, 47, 98]) [47, 42, 47, 98] 0
            = true
        ∧ fullMatch osc_match (OSCMessage.withAddress [47, 97, 47, 98]) [47, 97, 47, 63] 0
            = true
        ∧ fullMatch osc_match (OSCMessage.withAddress [47, 97, 47, 98])
            [47, 97, 47, 91, 97, 45, 99, 93] 0 = true
        ∧ fullMatch osc_match (OSCMessage.withAddress [47, 97, 47, 98])
            [47, 97, 47, 123, 98, 44, 99, 125] 0 = true
        ∧ fullMatch osc_match (OSCMessage.withAddress [47, 97, 47, 98]) [47, 42] 0 = false
        ∧ fullMatch osc_match (OSCMessage.withAddress [47, 97, 47, 98])
            [47, 97, 47, 91, 33, 97, 45, 99, 93] 0 = false
        ∧ fullMatch osc_match (OSCMessage.withAddress [47, 97, 47, 42]) [47, 97, 47, 98] 0
            = false) := by
  have hfrom := addressFrom_of_address m a addr_offset ha
  have hfull : ∀ f : List Nat → List Nat → MatchResult,
      (fullMatch f m pattern addr_offset = true ↔ (f (a.drop addr_offset) pattern).ret = 3) := by
    intro f
    simp [fullMatch, hfrom]
  have hyes : ∀ f : List Nat → List Nat → MatchResult, (f (a.drop addr_offset) pattern).ret = 3 →
      dispatch f m pattern callback addr_offset s = (true, callback m s) := by
    intro f h
    simp [dispatch, (hfull f).2 h]
  have hno : ∀ f : List Nat → List Nat → MatchResult, (f (a.drop addr_offset) pattern).ret ≠ 3 →
      dispatch f m pattern callback addr_offset s = (false, m, s) := by
    intro f h
    have : fullMatch f m pattern addr_offset = false := by
      rw [Bool.eq_false_iff]
      exact fun h1 => h ((hfull f).1 h1)
    simp [dispatch, this]
  refine ⟨hfull osc_match', hyes osc_match', hno osc_match', ?_,
    ⟨by decide, by decide, by decide⟩, ⟨by decide, by decide, by decide⟩,
    ⟨by decide, by decide, by decide, by decide, by decide, by decide, by decide, by decide⟩⟩
  intro hl
  have hret := osc_match_literal_ret (a.drop addr_offset) pattern hl
  exact ⟨(hfull osc_match).trans hret, fun h => hyes osc_match (hret.2 h),
    fun h => hno osc_match (fun h3 => h (hret.1 h3))⟩

theorem fullMatch_dispatch_witness :
    dispatch osc_match (OSCMessage.withAddress [47, 120, 47, 97, 47, 98]) [47, 97, 47, 98]
        (fun msg (calls : List OSCMessage) => (msg, calls ++ [msg])) 2 []
      = (true, OSCMessage.withAddress [47, 120, 47, 97, 47, 98],
          [OSCMessage.withAddress [47, 120, 47, 97, 47, 98]])
    ∧ dispatch osc_match (OSCMessage.withAddress [47, 97, 47, 98]) [47, 97, 47, 42]
        (fun msg (calls : List OSCMessage) => (msg, calls ++ [msg])) 0 []
      = (true, OSCMessage.withAddress [47, 97, 47, 98], [OSCMessage.withAddress [47, 97, 47, 98]])
    ∧ dispatch osc_match (OSCMessage.withAddress [47, 97]) [47, 97, 47, 98]
        (fun msg (calls : List OSCMessage) => (msg, calls ++ [msg])) 0 []
      = (false, OSCMessage.withAddress [47, 97], []) :=
  ⟨((fullMatch_dispatch osc_match (OSCMessage.withAddress [47, 120, 47, 97, 47, 98])
      [47, 120, 47, 97, 47, 98] [47, 97, 47, 98]
      (fun msg (calls : List OSCMessage) => (msg, calls ++ [msg])) 2 [] rfl
      (by decide)).2.2.2.1 (by decide)).2.1 (by decide),
   (fullMatch_dispatch osc_match (OSCMessage.withAddress [47, 97, 47, 98]) [47, 97, 47, 98]
      [47, 97, 47, 42] (fun msg (calls : List OSCMessage) => (msg, calls ++ [msg])) 0 [] rfl
      (by decide)).2.1 (by decide),
   (fullMatch_dispatch osc_match (OSCMessage.withAddress [47, 97]) [47, 97] [47, 97, 47, 98]
      (fun msg (calls : List OSCMessage) => (msg, calls ++ [msg])) 0 [] rfl
      (by decide)).2.2.1 (by decide)⟩

/-- C15: for a message with the address `a` and an offset within it, and for
every matcher reporting the result `ret` and `n` consumed characters of the
address from `offset` on, `match(pattern, offset)` returns `n` when `ret` is 3,
or when `n > 0` and the address character at `offset + n` is `/`, and 0 in
every other case; `route` calls the handler once, with the message and
`offset + n`, and returns true when that result is positive, and otherwise does
not call it and returns false. The matcher of the specification consumes no
more than the address has, and for a pattern without wildcard `match` returns
the length of the pattern when the address from `offset` on starts with the
pattern and ends there or goes on with `/`, and 0 otherwise: `/foo` gives 0
against `/foobar/x` and 4 against `/foo/x`, and 4 against `/x/foo/y` at offset
2, where `route` hands the offset 6 to the handler; the patterns `/*` and
`/f?o` of the caller give 4 against `/foo/x`. -/
theorem matchSegment_route {σ : Type} (osc_match' : List Nat → List Nat → MatchResult)
    (m : OSCMessage) (a pattern : List Nat)
    (callback : OSCMessage → Nat → σ → OSCMessage × σ) (addr_offset : Nat) (s : σ)
    (ha : m.address = some a) (hoff : addr_offset ≤ a.length)
    (_hin : addr_offset + (osc_match' (a.drop addr_offset) pattern).first_offset ≤ a.length) :
    ((osc_match' (a.drop addr_offset) pattern).ret = 3
        ∨ (0 < (osc_match' (a.drop addr_offset) pattern).first_offset
            ∧ (a ++ [0])[addr_offset + (osc_match' (a.drop addr_offset) pattern).first_offset]?
                = some 47) →
        matchSegment osc_match' m pattern addr_offset
          = (osc_match' (a.drop addr_offset) pattern).first_offset)
      ∧ (¬ ((osc_match' (a.drop addr_offset) pattern).ret = 3
          ∨ (0 < (osc_match' (a.drop addr_offset) pattern).first_offset
            ∧ (a ++ [0])[addr_offset + (osc_match' (a.drop addr_offset) pattern).first_offset]?
                = some 47)) →
        matchSegment osc_match' m pattern addr_offset = 0)
      ∧ (0 < matchSegment osc_match' m pattern addr_offset →
          route osc_match' m pattern callback addr_offset s
            = (true, callback m (matchSegment osc_match' m pattern addr_offset + addr_offset) s))
      ∧ (matchSegment osc_match' m pattern addr_offset = 0 →
          route osc_match' m pattern callback addr_offset s = (false, m, s))
      ∧ addr_offset + (osc_match (a.drop addr_offset) pattern).first_offset ≤ a.length
      ∧ (isLiteral pattern = true →
          ((a.drop addr_offset).take pattern.length = pattern
              ∧ (a.length = addr_offset + pattern.length
                ∨ (0 < pattern.length ∧ a[addr_offset + pattern.length]? = some 47)) →
            matchSegment osc_match m pattern addr_offset = pattern.length)
          ∧ (¬ ((a.drop addr_offset).take pattern.length = pattern
              ∧ (a.length = addr_offset + pattern.length
                ∨ (0 < pattern.length ∧ a[addr_offset + pattern.length]? = some 47))) →
            matchSegment osc_match m pattern addr_offset = 0))
      ∧ (matchSegment osc_match
            (OSCMessage.withAddress [47, 102, 111, 111, 98, 97, 114, 47, 120])
            [47, 102, 111, 111] 0 = 0
        ∧ matchSegment osc_match (OSCMessage.withAddress [47, 102, 111, 111, 47, 120])
            [47, 102, 111, 111] 0 = 4)
      ∧ (matchSegment osc_match
            (OSCMessage.withAddress [47, 120, 47, 102, 111, 111, 47, 121])
            [47, 102, 111, 111] 2 = 4
        ∧ matchSegment osc_match
            (OSCMessage.withAddress [47, 120, 47, 102, 111, 111, 98, 97, 114, 47, 121])
            [47, 102, 111, 111] 2 = 0
        ∧ matchSegment osc_match
            (OSCMessage.withAddress [47, 120, 47, 102, 111, 111, 47, 121])
            [47, 102, 111, 111] 0 = 0)
      ∧ (matchSegment osc_match (OSCMessage.withAddress [47, 102, 111, 111, 47, 120])
            [47, 42] 0 = 4
        ∧ matchSegment osc_match (OSCMessage.withAddress [47, 102, 111, 111, 47, 120])
            [47, 102, 63, 111] 0 = 4
        ∧ matchSegment osc_match (OSCMessage.withAddress [47, 102, 111, 111, 98, 97, 114])
            [47, 102, 63, 111] 0 = 0) := by
  have hfrom := addressFrom_of_address m a addr_offset ha
  have hsep : ∀ i, addressChar m i = 47 ↔ (a ++ [0])[i]? = some 47 := by
    intro i
    rw [addressChar_of_address m a i ha, List.getD_eq_getElem?_getD]
    cases (a ++ [0])[i]? with
    | none => simp
    | some x => simp
  refine ⟨?_, ?_, ?_, ?_, ?_, ?_, ⟨by decide, by decide⟩, ⟨by decide, by decide, by decide⟩,
    ⟨by decide, by decide, by decide⟩⟩
  · rintro (h | ⟨h1, h2⟩)
    · simp [matchSegment, hfrom, h]
    · by_cases h3 : (osc_match' (a.drop addr_offset) pattern).ret = 3
      · simp [matchSegment, hfrom, h3]
      · simp only [matchSegment, hfrom, if_neg h3, gt_iff_lt, hsep]
        rw [if_pos ⟨h1, h2⟩]
  · intro h
    rw [not_or] at h
    simp only [matchSegment, hfrom, if_neg h.1, gt_iff_lt, hsep, if_neg h.2]
  · intro h
    simp only [route, gt_iff_lt, if_pos h]
  · intro h
    simp only [route, gt_iff_lt, h, lt_irrefl, if_false]
  · have := osc_match_first_offset_le (a.drop addr_offset) pattern
    rw [List.length_drop] at this
    omega
  · intro hl
    have h := matchSegment_literal m a pattern addr_offset ha hoff hl
    exact ⟨fun hc => by rw [h, if_pos hc], fun hc => by rw [h, if_neg hc]⟩

theorem matchSegment_route_witness :
    route osc_match (OSCMessage.withAddress [47, 120, 47, 102, 111, 111, 47, 121])
        [47, 102, 111, 111] (fun msg off (calls : List Nat) => (msg, calls ++ [off])) 2 []
      = (true, OSCMessage.withAddress [47, 120, 47, 102, 111, 111, 47, 121], [6])
    ∧ route osc_match (OSCMessage.withAddress [47, 102, 111, 111, 47, 120]) [47, 42]
        (fun msg off (calls : List Nat) => (msg, calls ++ [off])) 0 []
      = (true, OSCMessage.withAddress [47, 102, 111, 111, 47, 120], [4])
    ∧ route osc_match (OSCMessage.withAddress [47, 102, 111, 111, 98, 97, 114, 47, 120])
        [47, 102, 111, 111] (fun msg off (calls : List Nat) => (msg, calls ++ [off])) 0 []
      = (false, OSCMessage.withAddress [47, 102, 111, 111, 98, 97, 114, 47, 120], []) :=
  ⟨((matchSegment_route osc_match (OSCMessage.withAddress [47, 120, 47, 102, 111, 111, 47, 121])
      [47, 120, 47, 102, 111, 111, 47, 121] [47, 102, 111, 111]
      (fun msg off (calls : List Nat) => (msg, calls ++ [off])) 2 [] rfl (by decide)
      (by decide)).2.2.1 (by decide)).trans (by decide),
   ((matchSegment_route osc_match (OSCMessage.withAddress [47, 102, 111, 111, 47, 120])
      [47, 102, 111, 111, 47, 120] [47, 42]
      (fun msg off (calls : List Nat) => (msg, calls ++ [off])) 0 [] rfl (by decide)
      (by decide)).2.2.1 (by decide)).trans (by decide),
   (matchSegment_route osc_match
      (OSCMessage.withAddress [47, 102, 111, 111, 98, 97, 114, 47, 120])
      [47, 102, 111, 111, 98, 97, 114, 47, 120] [47, 102, 111, 111]
      (fun msg off (calls : List Nat) => (msg, calls ++ [off])) 0 [] rfl (by decide)
      (by decide)).2.2.2.1 (by decide)⟩

/-! ## The decoder does not read the address nor the own error code -/

theorem addToIncomingBuffer_withAddressError (m : OSCMessage) (a : Option (List Nat))
    (e : OSCErrorCode) (b : Nat) :
    addToIncomingBuffer (withAddressError m a e) b
      = withAddressError (addToIncomingBuffer m b) a e := by
  unfold addToIncomingBuffer withAddressError
  split <;> rfl

theorem decodeDatum_float (m : OSCMessage) (i b : Nat) (d : OSCData) (ht : d.type = 102) :
    decodeDatum m i d b =
      if m.incomingBuffer.length = 4 then
        clearIncomingBuffer (set m i (OSCData.ofFloat (fromBigEndian (m.incomingBuffer.take 4))))
      else m := by
  simp [decodeDatum, ht, OSCMessage.incomingBufferSize]

theorem decodeDatum_double (m : OSCMessage) (i b : Nat) (d : OSCData) (ht : d.type = 100) :
    decodeDatum m i d b =
      if m.incomingBuffer.length = 8 then
        clearIncomingBuffer (set m i (OSCData.ofDouble (fromBigEndian (m.incomingBuffer.take 8))))
      else m := by
  simp [decodeDatum, ht, OSCMessage.incomingBufferSize]

theorem decodeDatum_other (m : OSCMessage) (i b : Nat) (d : OSCData)
    (h1 : d.type ≠ 105) (h2 : d.type ≠ 102) (h3 : d.type ≠ 100) (h4 : d.type ≠ 116)
    (h5 : d.type ≠ 115) (h6 : d.type ≠ 98) : decodeDatum m i d b = m := by
  simp [decodeDatum, h1, h2, h3, h4, h5, h6]

theorem decodeDatum_withAddressError (m : OSCMessage) (a : Option (List Nat))
    (e : OSCErrorCode) (i : Nat) (d : OSCData) (b : Nat) :
    decodeDatum (withAddressError m a e) i d b = withAddressError (decodeDatum m i d b) a e := by
  by_cases h1 : d.type = 105
  · rw [decodeDatum_int _ i b d h1, decodeDatum_int _ i b d h1]
    show (if m.incomingBuffer.length = 4 then _ else _) = _
    split_ifs <;> rfl
  by_cases h2 : d.type = 102
  · rw [decodeDatum_float _ i b d h2, decodeDatum_float _ i b d h2]
    show (if m.incomingBuffer.length = 4 then _ else _) = _
    split_ifs <;> rfl
  by_cases h3 : d.type = 100
  · rw [decodeDatum_double _ i b d h3, decodeDatum_double _ i b d h3]
    show (if m.incomingBuffer.length = 8 then _ else _) = _
    split_ifs <;> rfl
  by_cases h4 : d.type = 116
  · rw [decodeDatum_time _ i b d h4, decodeDatum_time _ i b d h4]
    show (if m.incomingBuffer.length = 8 then _ else _) = _
    split_ifs <;> rfl
  by_cases h5 : d.type = 115
  · rw [decodeDatum_string _ i b d h5, decodeDatum_string _ i b d h5]
    split_ifs <;> rfl
  by_cases h6 : d.type = 98
  · rw [decodeDatum_blob _ i b d h6, decodeDatum_blob _ i b d h6]
    show (if m.incomingBuffer.length > 4 then
        (if m.incomingBuffer.length
            = (fromBigEndian (m.incomingBuffer.take 4) + 4) % 4294967296 then
          (if padSize (fromBigEndian (m.incomingBuffer.take 4)) > 0 then _ else _)
          else _)
        else _) = _
    split_ifs <;> rfl
  rw [decodeDatum_other _ i b d h1 h2 h3 h4 h5 h6, decodeDatum_other _ i b d h1 h2 h3 h4 h5 h6]

theorem decodeDataLoop_withAddressError (m : OSCMessage) (a : Option (List Nat))
    (e : OSCErrorCode) (b : Nat) :
    ∀ (k i : Nat), i + k ≤ m.data.length →
      decodeDataLoop k i (withAddressError m a e) b
        = withAddressError (decodeDataLoop k i m b) a e := by
  intro k
  induction k with
  | zero => intro i _; rfl
  | succ k ih =>
    intro i h
    have hi : m.data[i]? = some m.data[i] := List.getElem?_eq_getElem (by omega)
    have hi' : (withAddressError m a e).data[i]? = some m.data[i] := hi
    simp only [decodeDataLoop, getOSCData_of_getElem? hi, getOSCData_of_getElem? hi']
    split_ifs
    · exact decodeDatum_withAddressError m a e i _ b
    · exact ih (i + 1) (by omega)

theorem dataPaddingLoop_withAddressError (m : OSCMessage) (a : Option (List Nat))
    (e : OSCErrorCode) :
    ∀ (k : Nat), k ≤ m.data.length →
      dataPaddingLoop k (withAddressError m a e) = withAddressError (dataPaddingLoop k m) a e := by
  intro k
  induction k with
  | zero => intro _; rfl
  | succ k ih =>
    intro h
    have hi : m.data[k]? = some m.data[k] := List.getElem?_eq_getElem (by omega)
    have hi' : (withAddressError m a e).data[k]? = some m.data[k] := hi
    have hsz : (withAddressError m a e).incomingBufferSize = m.incomingBufferSize := rfl
    simp only [dataPaddingLoop, getOSCData_of_getElem? hi, getOSCData_of_getElem? hi', hsz]
    split_ifs
    · rfl
    · rfl
    · exact ih (by omega)

/-- One step of the decoder on a message with another address and own error
code: the step that finalizes the address overwrites both, every other step
carries them along. -/
theorem decode_withAddressError (m : OSCMessage) (a : Option (List Nat)) (e : OSCErrorCode)
    (b : Nat) :
    decode (withAddressError m a e) b =
      if m.decodeState = .ADDRESS ∧ b = 0 then decode m b
      else withAddressError (decode m b) a e := by
  unfold decode
  simp only [addToIncomingBuffer_withAddressError]
  have hst : (withAddressError (addToIncomingBuffer m b) a e).decodeState = m.decodeState := by
    simp [withAddressError]
  have hst' : (addToIncomingBuffer m b).decodeState = m.decodeState := by simp
  have hsz : (withAddressError (addToIncomingBuffer m b) a e).incomingBufferSize
      = (addToIncomingBuffer m b).incomingBufferSize := rfl
  rw [hst, hst']
  simp only [hsz]
  cases hs : m.decodeState
  · simp only [false_and, if_false, reduceCtorEq]
    split_ifs <;> rfl
  · by_cases hb : b = 0
    · simp only [hb, and_self, if_true]
      rfl
    · simp only [hb, and_false, if_false]
  · simp only [false_and, if_false, reduceCtorEq]
    split_ifs <;> rfl
  · simp only [false_and, if_false, reduceCtorEq]
    split_ifs <;> rfl
  · simp only [false_and, if_false, reduceCtorEq]
    split_ifs <;> rfl
  · simp only [false_and, if_false, reduceCtorEq]
    exact decodeDataLoop_withAddressError _ a e b _ 0 (by simp [OSCMessage.dataCount, withAddressError])
  · simp only [false_and, if_false, reduceCtorEq]
    exact dataPaddingLoop_withAddressError _ a e _ (by simp [OSCMessage.dataCount, withAddressError])

theorem decode_early_state (m : OSCMessage) (b : Nat)
    (hs : m.decodeState = .STANDBY ∨ m.decodeState = .ADDRESS)
    (hb : ¬ (m.decodeState = .ADDRESS ∧ b = 0)) :
    (decode m b).decodeState = .STANDBY ∨ (decode m b).decodeState = .ADDRESS := by
  rcases hs with hs | hs
  · by_cases h47 : b = 47
    · right; simp [decode, hs, h47]
    · left; simp [decode, hs, h47]
  · have hb0 : b ≠ 0 := fun h0 => hb ⟨hs, h0⟩
    right
    rw [decode_ADDRESS_nonzero m b hs hb0]
    simpa using hs

/-- Feeding bytes to a message with another address and own error code: either
the address has been finalized on the way and the two messages are the same, or
the decoder is still before the end of the address and the two messages differ
in the address and the own error code only. -/
theorem fill_withAddressError (a : Option (List Nat)) (e : OSCErrorCode) :
    ∀ (bs : List Nat) (m : OSCMessage),
      fill (withAddressError m a e) bs = fill m bs
        ∨ (fill (withAddressError m a e) bs = withAddressError (fill m bs) a e
            ∧ ((m.decodeState = .STANDBY ∨ m.decodeState = .ADDRESS) →
                ((fill m bs).decodeState = .STANDBY ∨ (fill m bs).decodeState = .ADDRESS))) := by
  intro bs
  induction bs with
  | nil => intro m; exact Or.inr ⟨rfl, fun h => h⟩
  | cons b bs ih =>
    intro m
    rw [fill_cons, fill_cons, decode_withAddressError]
    by_cases hb : m.decodeState = .ADDRESS ∧ b = 0
    · rw [if_pos hb]; exact Or.inl rfl
    · rw [if_neg hb]
      rcases ih (decode m b) with h | ⟨h1, h2⟩
      · exact Or.inl h
      · exact Or.inr ⟨h1, fun hs => h2 (decode_early_state m b hs hb)⟩

theorem empty_of_STANDBY (m : OSCMessage) (hs : m.decodeState = .STANDBY) :
    empty m = withAddressError setupMessage m.address .OSC_OK := by
  rw [empty_eq]
  simp [withAddressError, setupMessage, clearIncomingBuffer, hs]

theorem fill_fresh_agree (a1 a2 : Option (List Nat)) (e1 e2 : OSCErrorCode) (bs : List Nat) :
    (fill (withAddressError setupMessage a1 e1) bs).data
        = (fill (withAddressError setupMessage a2 e2) bs).data
      ∧ (fill (withAddressError setupMessage a1 e1) bs).decodeState
        = (fill (withAddressError setupMessage a2 e2) bs).decodeState
      ∧ (fill (withAddressError setupMessage a1 e1) bs).incomingBuffer
        = (fill (withAddressError setupMessage a2 e2) bs).incomingBuffer
      ∧ ((fill (withAddressError setupMessage a2 e2) bs).decodeState ≠ .STANDBY →
          (fill (withAddressError setupMessage a2 e2) bs).decodeState ≠ .ADDRESS →
          fill (withAddressError setupMessage a1 e1) bs
            = fill (withAddressError setupMessage a2 e2) bs) := by
  have hS : setupMessage.decodeState = .STANDBY ∨ setupMessage.decodeState = .ADDRESS :=
    Or.inl rfl
  rcases fill_withAddressError a1 e1 bs setupMessage with h1 | ⟨h1, g1⟩ <;>
    rcases fill_withAddressError a2 e2 bs setupMessage with h2 | ⟨h2, g2⟩
  · rw [h1, h2]; exact ⟨rfl, rfl, rfl, fun _ _ => rfl⟩
  · rw [h1, h2]
    refine ⟨rfl, rfl, rfl, fun n1 n2 => ?_⟩
    rcases g2 hS with g | g
    · exact absurd g n1
    · exact absurd g n2
  · rw [h1, h2]
    refine ⟨rfl, rfl, rfl, fun n1 n2 => ?_⟩
    rcases g1 hS with g | g
    · exact absurd g n1
    · exact absurd g n2
  · rw [h1, h2]
    refine ⟨rfl, rfl, rfl, fun n1 n2 => ?_⟩
    rcases g2 hS with g | g
    · exact absurd g n1
    · exact absurd g n2

/-- With no value in the list the loop of `decodeData` has nothing to scan:
in `DATA` the decoder only buffers. -/
theorem decode_DATA_no_data (m : OSCMessage) (b : Nat) (hs : m.decodeState = .DATA)
    (hd : m.data = []) : decode m b = addToIncomingBuffer m b := by
  rw [decode_DATA m b hs]
  have h0 : (addToIncomingBuffer m b).dataCount = 0 := by
    simp [OSCMessage.dataCount, hd]
  unfold decodeData
  rw [h0]
  rfl

theorem fill_DATA_no_data :
    ∀ (bs : List Nat) (m : OSCMessage), m.decodeState = .DATA → m.data = [] →
      fill m bs = addBytes m bs := by
  intro bs
  induction bs with
  | nil => intro m _ _; rfl
  | cons b bs ih =>
    intro m hs hd
    rw [fill_cons, decode_DATA_no_data m b hs hd, addBytes_cons]
    exact ih _ (by simpa using hs) (by simpa using hd)

/-- A message emptied in the state `DATA` stays there whatever is fed to it:
every byte is buffered, no address and no value is decoded. -/
theorem fill_empty_of_DATA (m : OSCMessage) (hs : m.decodeState = .DATA) (bs : List Nat) :
    fill (empty m) bs = addBytes (empty m) bs :=
  fill_DATA_no_data bs (empty m) (by rw [empty_eq]; exact hs) (by rw [empty_eq])

/-- C18 (fails in the code): `empty()` does not set the decode state back. The
decoder that has read the whole packet `/a` `,i` 7 is in `DATA`; emptied, it is
still in `DATA` with the address `/a`. Whatever bytes `bs` are then fed to it,
it stays in `DATA` with the address `/a` and no value, the bytes piling up in
the buffer; fed the packet `/b` `,i` 9, a freshly constructed message (either
constructor) decodes the address `/b` and the integer 9. -/
theorem empty_keeps_decodeState (bs : List Nat) :
    (decodedInt.decodeState = .DATA ∧ decodedInt.address = some [47, 97]
        ∧ decodedInt.data = [OSCData.ofInt 7] ∧ decodedInt.incomingBuffer = [])
      ∧ ((empty decodedInt).decodeState = .DATA ∧ (empty decodedInt).address = some [47, 97]
        ∧ (empty decodedInt).data = [] ∧ (empty decodedInt).error = .OSC_OK)
      ∧ ((fill (empty decodedInt) bs).decodeState = .DATA
        ∧ (fill (empty decodedInt) bs).address = some [47, 97]
        ∧ (fill (empty decodedInt) bs).data = []
        ∧ (fill (empty decodedInt) bs).incomingBuffer = bs)
      ∧ ((fill OSCMessage.new [47, 98, 0, 0, 44, 105, 0, 0, 0, 0, 0, 9]).decodeState = .DATA
        ∧ (fill OSCMessage.new [47, 98, 0, 0, 44, 105, 0, 0, 0, 0, 0, 9]).address
            = some [47, 98]
        ∧ (fill OSCMessage.new [47, 98, 0, 0, 44, 105, 0, 0, 0, 0, 0, 9]).data
            = [OSCData.ofInt 9]
        ∧ (fill (OSCMessage.withAddress [47, 120])
            [47, 98, 0, 0, 44, 105, 0, 0, 0, 0, 0, 9]).address = some [47, 98]
        ∧ (fill (OSCMessage.withAddress [47, 120])
            [47, 98, 0, 0, 44, 105, 0, 0, 0, 0, 0, 9]).data = [OSCData.ofInt 9]
        ∧ (fill (empty decodedInt) [47, 98, 0, 0, 44, 105, 0, 0, 0, 0, 0, 9]).address
            = some [47, 97]
        ∧ (fill (empty decodedInt) [47, 98, 0, 0, 44, 105, 0, 0, 0, 0, 0, 9]).data = []) := by
  have hs : decodedInt.decodeState = .DATA := by decide
  refine ⟨by decide, by decide, ?_, by decide⟩
  rw [fill_empty_of_DATA decodedInt hs bs]
  simp only [addBytes_decodeState, addBytes_address, addBytes_data, addBytes_incomingBuffer]
  have hb : (empty decodedInt).incomingBuffer = [] := by decide
  rw [hb]
  exact ⟨by decide, by decide, by decide, rfl⟩

/-! ## The padding of the type-tag string in the decoder -/

theorem decode_TYPES_zero (m : OSCMessage) (hs : m.decodeState = .TYPES) :
    decode m 0 =
      if (m.incomingBuffer.length + 2) % 4 = 0 then
        { clearIncomingBuffer (addToIncomingBuffer m 0) with decodeState := .DATA }
      else { addToIncomingBuffer m 0 with decodeState := .TYPES_PADDING } := by
  simp [decode, hs, padSize_eq, OSCMessage.incomingBufferSize]

theorem decode_TYPES_PADDING (m : OSCMessage) (b : Nat) (hs : m.decodeState = .TYPES_PADDING) :
    decode m b =
      if (m.incomingBuffer.length + 2) % 4 = 0 then
        { clearIncomingBuffer (addToIncomingBuffer m b) with decodeState := .DATA }
      else addToIncomingBuffer m b := by
  simp [decode, hs, padSize_eq, OSCMessage.incomingBufferSize]

/-- In `TYPES_PADDING` the decoder buffers until the buffered length plus one is
a multiple of 4. -/
theorem fill_TYPES_PADDING (w : List Nat) :
    ∀ m : OSCMessage, m.decodeState = .TYPES_PADDING →
      (∀ j, j < w.length → (m.incomingBuffer.length + j + 2) % 4 ≠ 0) →
      fill m w = addBytes m w := by
  induction w with
  | nil => intro m _ _; rfl
  | cons c w ih =>
    intro m hs hne
    rw [fill_cons, decode_TYPES_PADDING m c hs, if_neg (hne 0 (by simp)), addBytes_cons]
    refine ih _ (by simpa using hs) ?_
    intro j hj
    have := hne (j + 1) (by simpa using hj)
    simp only [addToIncomingBuffer_incomingBuffer, List.length_append, List.length_singleton]
    rw [show m.incomingBuffer.length + 1 + j + 2 = m.incomingBuffer.length + (j + 1) + 2 by omega]
    exact this

/-- After `j + 1` zero bytes, fewer than the decoder consumes, a decoder that
was in `TYPES` is in `TYPES_PADDING`. -/
theorem fill_TYPES_zeros_wait (m : OSCMessage) (hs : m.decodeState = .TYPES) (j : Nat)
    (hj : j + 1 < 4 - (m.incomingBuffer.length + 1) % 4) :
    fill m (List.replicate (j + 1) 0)
      = addBytes { addToIncomingBuffer m 0 with decodeState := .TYPES_PADDING }
          (List.replicate j 0) := by
  rw [List.replicate_succ, fill_cons, decode_TYPES_zero m hs, if_neg (by omega)]
  refine fill_TYPES_PADDING _ _ rfl ?_
  intro i hi
  simp only [List.length_replicate] at hi
  simp only [addToIncomingBuffer_incomingBuffer, List.length_append, List.length_singleton]
  omega

/-- A decoder in `TYPES` enters `DATA` after exactly `4 - (n + 1) mod 4` zero
bytes, `n` the number of bytes buffered (the type tags). -/
theorem fill_TYPES_zeros_exit (m : OSCMessage) (hs : m.decodeState = .TYPES) :
    (fill m (List.replicate (4 - (m.incomingBuffer.length + 1) % 4) 0)).decodeState = .DATA
      ∧ (fill m (List.replicate (4 - (m.incomingBuffer.length + 1) % 4) 0)).incomingBuffer = []
      ∧ (fill m (List.replicate (4 - (m.incomingBuffer.length + 1) % 4) 0)).data = m.data := by
  obtain ⟨z, hz⟩ : ∃ z, 4 - (m.incomingBuffer.length + 1) % 4 = z + 1 :=
    ⟨3 - (m.incomingBuffer.length + 1) % 4, by omega⟩
  rw [hz]
  rcases Nat.eq_zero_or_pos z with h0 | hpos
  · subst h0
    rw [List.replicate_succ, List.replicate_zero, fill_cons, fill_nil, decode_TYPES_zero m hs,
      if_pos (by omega)]
    simp [clearIncomingBuffer]
  · obtain ⟨y, rfl⟩ : ∃ y, z = y + 1 := ⟨z - 1, by omega⟩
    rw [List.replicate_succ', fill_append, fill_TYPES_zeros_wait m hs y (by omega), fill_cons,
      fill_nil, decode_TYPES_PADDING _ 0 (by simp), if_pos (by simp; omega)]
    simp [clearIncomingBuffer]

/-- C19 (defect): a decoder in `TYPES` that has buffered `n` type tags consumes
exactly `4 - (n + 1) mod 4` zero bytes before it enters `DATA`, not before;
`send()` writes `padSize(n + 1)` zero bytes, or 4 when that is 0. The two
numbers differ for every even `n` and agree for every odd `n`. -/
theorem types_padding_mismatch (m : OSCMessage) (n : Nat) (hs : m.decodeState = .TYPES)
    (hn : m.incomingBuffer.length = n) :
    (∀ j, j < 4 - (n + 1) % 4 → (fill m (List.replicate j 0)).decodeState ≠ .DATA)
      ∧ (fill m (List.replicate (4 - (n + 1) % 4) 0)).decodeState = .DATA
      ∧ (fill m (List.replicate (4 - (n + 1) % 4) 0)).incomingBuffer = []
      ∧ (n % 2 = 0 → (if padSize (n + 1) = 0 then 4 else padSize (n + 1)) ≠ 4 - (n + 1) % 4)
      ∧ (n % 2 = 1 → (if padSize (n + 1) = 0 then 4 else padSize (n + 1)) = 4 - (n + 1) % 4) := by
  subst hn
  obtain ⟨h1, h2, _⟩ := fill_TYPES_zeros_exit m hs
  refine ⟨?_, h1, h2, ?_, ?_⟩
  · intro j hj
    rcases Nat.eq_zero_or_pos j with h0 | hpos
    · subst h0
      rw [List.replicate_zero, fill_nil, hs]
      exact fun h => DecodeState.noConfusion h
    · obtain ⟨y, rfl⟩ : ∃ y, j = y + 1 := ⟨j - 1, by omega⟩
      rw [fill_TYPES_zeros_wait m hs y hj, addBytes_decodeState]
      exact fun h => DecodeState.noConfusion h
  · intro hev
    simp only [padSize_eq]
    split <;> omega
  · intro hodd
    simp only [padSize_eq]
    split <;> omega

theorem types_padding_mismatch_witness :
    (send twoIntsMessage).1 = [47, 97, 0, 0, 0, 0, 44, 105, 105] ++ List.replicate 3 0
        ++ [0, 0, 0, 1, 0, 0, 0, 2]
      ∧ (fill (fill OSCMessage.new [47, 97, 0, 0, 0, 0, 44, 105, 105])
          (List.replicate (4 - (2 + 1) % 4) 0)).decodeState = .DATA
      ∧ 4 - (2 + 1) % 4 = 1 :=
  have h := types_padding_mismatch (fill OSCMessage.new [47, 97, 0, 0, 0, 0, 44, 105, 105]) 2
    (by decide) (by decide)
  ⟨by decide, h.2.1, by decide⟩

/-! ## The own error code is sticky -/

theorem getOSCData_error_ne (m : OSCMessage) (position : Nat) (h : m.error ≠ .OSC_OK) :
    (getOSCData m position).2.error ≠ .OSC_OK := by
  unfold getOSCData
  split
  · exact h
  · simp

theorem getInt_of_error (m : OSCMessage) (position : Nat) (h : m.error ≠ .OSC_OK) :
    getInt m position = (0, (getOSCData m position).2) := by
  have hg := getOSCData_error_ne m position h
  unfold getInt
  generalize getOSCData m position = r at hg ⊢
  obtain ⟨datum, m1⟩ := r
  simp only [hasError_of_error_ne m1 hg]

theorem getTime_of_error (m : OSCMessage) (position : Nat) (h : m.error ≠ .OSC_OK) :
    getTime m position = (0, (getOSCData m position).2) := by
  have hg := getOSCData_error_ne m position h
  unfold getTime
  generalize getOSCData m position = r at hg ⊢
  obtain ⟨datum, m1⟩ := r
  simp only [hasError_of_error_ne m1 hg]

theorem getFloat_of_error (m : OSCMessage) (position : Nat) (h : m.error ≠ .OSC_OK) :
    getFloat m position = (0, (getOSCData m position).2) := by
  have hg := getOSCData_error_ne m position h
  unfold getFloat
  generalize getOSCData m position = r at hg ⊢
  obtain ⟨datum, m1⟩ := r
  simp only [hasError_of_error_ne m1 hg]

theorem getDouble_of_error (m : OSCMessage) (position : Nat) (h : m.error ≠ .OSC_OK) :
    getDouble m position = (0, (getOSCData m position).2) := by
  have hg := getOSCData_error_ne m position h
  unfold getDouble
  generalize getOSCData m position = r at hg ⊢
  obtain ⟨datum, m1⟩ := r
  simp only [hasError_of_error_ne m1 hg]

theorem getString_of_error (m : OSCMessage) (position bufferSize : Nat)
    (h : m.error ≠ .OSC_OK) :
    getString m position bufferSize = ((0, []), (getOSCData m position).2) := by
  have hg := getOSCData_error_ne m position h
  unfold getString
  generalize getOSCData m position = r at hg ⊢
  obtain ⟨datum, m1⟩ := r
  simp only [hasError_of_error_ne m1 hg]

theorem getBlob_of_error (m : OSCMessage) (position bufferSize : Nat)
    (h : m.error ≠ .OSC_OK) :
    getBlob m position bufferSize = ((0, []), (getOSCData m position).2) := by
  have hg := getOSCData_error_ne m position h
  unfold getBlob
  generalize getOSCData m position = r at hg ⊢
  obtain ⟨datum, m1⟩ := r
  simp only [hasError_of_error_ne m1 hg]

theorem getType_of_error (m : OSCMessage) (position : Nat) (h : m.error ≠ .OSC_OK) :
    getType m position = (0, (getOSCData m position).2) := by
  have hg := getOSCData_error_ne m position h
  unfold getType
  generalize getOSCData m position = r at hg ⊢
  obtain ⟨datum, m1⟩ := r
  simp [hasError_of_error_ne m1 hg]

theorem getDataLength_of_error (m : OSCMessage) (position : Nat) (h : m.error ≠ .OSC_OK) :
    getDataLength m position = (0, (getOSCData m position).2) := by
  have hg := getOSCData_error_ne m position h
  unfold getDataLength
  generalize getOSCData m position = r at hg ⊢
  obtain ⟨datum, m1⟩ := r
  simp only [hasError_of_error_ne m1 hg]

theorem testType_of_error (m : OSCMessage) (position type : Nat) (h : m.error ≠ .OSC_OK) :
    testType m position type = (false, (getOSCData m position).2) := by
  have hg := getOSCData_error_ne m position h
  unfold testType
  generalize getOSCData m position = r at hg ⊢
  obtain ⟨datum, m1⟩ := r
  simp only [hasError_of_error_ne m1 hg]

theorem isBoolean_of_error (m : OSCMessage) (position : Nat) (h : m.error ≠ .OSC_OK) :
    isBoolean m position = (false, (getOSCData (getOSCData m position).2 position).2) := by
  unfold isBoolean
  rw [testType_of_error m position 84 h]
  exact testType_of_error _ position 70 (getOSCData_error_ne m position h)

theorem run_error_ne (m : OSCMessage) (c : ReadCall) (h : m.error ≠ .OSC_OK) :
    (c.run m).error ≠ .OSC_OK := by
  cases c with
  | getInt p => simp only [ReadCall.run, getInt_of_error m p h]; exact getOSCData_error_ne m p h
  | getTime p => simp only [ReadCall.run, getTime_of_error m p h]; exact getOSCData_error_ne m p h
  | getFloat p =>
    simp only [ReadCall.run, getFloat_of_error m p h]; exact getOSCData_error_ne m p h
  | getDouble p =>
    simp only [ReadCall.run, getDouble_of_error m p h]; exact getOSCData_error_ne m p h
  | getString p n =>
    simp only [ReadCall.run, getString_of_error m p n h]; exact getOSCData_error_ne m p h
  | getBlob p n =>
    simp only [ReadCall.run, getBlob_of_error m p n h]; exact getOSCData_error_ne m p h
  | getType p => simp only [ReadCall.run, getType_of_error m p h]; exact getOSCData_error_ne m p h
  | getDataLength p =>
    simp only [ReadCall.run, getDataLength_of_error m p h]; exact getOSCData_error_ne m p h
  | testType p t =>
    simp only [ReadCall.run, testType_of_error m p t h]; exact getOSCData_error_ne m p h
  | isInt p =>
    simp only [ReadCall.run, isInt, testType_of_error m p _ h]; exact getOSCData_error_ne m p h
  | isTime p =>
    simp only [ReadCall.run, isTime, testType_of_error m p _ h]; exact getOSCData_error_ne m p h
  | isFloat p =>
    simp only [ReadCall.run, isFloat, testType_of_error m p _ h]; exact getOSCData_error_ne m p h
  | isBlob p =>
    simp only [ReadCall.run, isBlob, testType_of_error m p _ h]; exact getOSCData_error_ne m p h
  | isChar p =>
    simp only [ReadCall.run, isChar, testType_of_error m p _ h]; exact getOSCData_error_ne m p h
  | isString p =>
    simp only [ReadCall.run, isString, testType_of_error m p _ h]; exact getOSCData_error_ne m p h
  | isDouble p =>
    simp only [ReadCall.run, isDouble, testType_of_error m p _ h]; exact getOSCData_error_ne m p h
  | isBoolean p =>
    simp only [ReadCall.run, isBoolean_of_error m p h]
    exact getOSCData_error_ne _ p (getOSCData_error_ne m p h)
  | getDataCount => exact h
  | size => exact h
  | bytes => simp only [ReadCall.run, bytes_eq]; exact h
  | hasError => simp only [ReadCall.run, hasError_eq]; exact h
  | getError => exact h
  | send =>
    simp only [ReadCall.run, send_of_error m ((aggregateError_eq_true_iff m).2 (Or.inl h))]
    exact h

theorem runCalls_error_ne (calls : List ReadCall) :
    ∀ m : OSCMessage, m.error ≠ .OSC_OK → (runCalls m calls).error ≠ .OSC_OK := by
  induction calls with
  | nil => intro m h; exact h
  | cons c calls ih => intro m h; exact ih _ (run_error_ne m c h)

/-- Apart from the step that finalizes the address, a step of the decoder
leaves the own error code and the address as they were. -/
theorem decode_error_address (m : OSCMessage) (b : Nat)
    (hb : ¬ (m.decodeState = .ADDRESS ∧ b = 0)) :
    (decode m b).error = m.error ∧ (decode m b).address = m.address := by
  have h := decode_withAddressError m m.address m.error b
  rw [if_neg hb] at h
  have hm : withAddressError m m.address m.error = m := rfl
  rw [hm] at h
  constructor
  · rw [h]; rfl
  · rw [h]; rfl

theorem getOSCData_address (m : OSCMessage) (position : Nat) :
    (getOSCData m position).2.address = m.address := by
  unfold getOSCData
  split <;> rfl

theorem run_address (m : OSCMessage) (c : ReadCall) (h : m.error ≠ .OSC_OK) :
    (c.run m).address = m.address := by
  cases c with
  | getInt p => simp only [ReadCall.run, getInt_of_error m p h, getOSCData_address]
  | getTime p => simp only [ReadCall.run, getTime_of_error m p h, getOSCData_address]
  | getFloat p => simp only [ReadCall.run, getFloat_of_error m p h, getOSCData_address]
  | getDouble p => simp only [ReadCall.run, getDouble_of_error m p h, getOSCData_address]
  | getString p n => simp only [ReadCall.run, getString_of_error m p n h, getOSCData_address]
  | getBlob p n => simp only [ReadCall.run, getBlob_of_error m p n h, getOSCData_address]
  | getType p => simp only [ReadCall.run, getType_of_error m p h, getOSCData_address]
  | getDataLength p =>
    simp only [ReadCall.run, getDataLength_of_error m p h, getOSCData_address]
  | testType p t => simp only [ReadCall.run, testType_of_error m p t h, getOSCData_address]
  | isInt p => simp only [ReadCall.run, isInt, testType_of_error m p _ h, getOSCData_address]
  | isTime p => simp only [ReadCall.run, isTime, testType_of_error m p _ h, getOSCData_address]
  | isFloat p =>
    simp only [ReadCall.run, isFloat, testType_of_error m p _ h, getOSCData_address]
  | isBlob p => simp only [ReadCall.run, isBlob, testType_of_error m p _ h, getOSCData_address]
  | isChar p => simp only [ReadCall.run, isChar, testType_of_error m p _ h, getOSCData_address]
  | isString p =>
    simp only [ReadCall.run, isString, testType_of_error m p _ h, getOSCData_address]
  | isDouble p =>
    simp only [ReadCall.run, isDouble, testType_of_error m p _ h, getOSCData_address]
  | isBoolean p => simp only [ReadCall.run, isBoolean_of_error m p h, getOSCData_address]
  | getDataCount => rfl
  | size => rfl
  | bytes => simp only [ReadCall.run, bytes_eq]
  | hasError => simp only [ReadCall.run, hasError_eq]
  | getError => rfl
  | send =>
    simp only [ReadCall.run, send_of_error m ((aggregateError_eq_true_iff m).2 (Or.inl h))]

theorem runCalls_address (calls : List ReadCall) :
    ∀ m : OSCMessage, m.error ≠ .OSC_OK → (runCalls m calls).address = m.address := by
  induction calls with
  | nil => intro m _; rfl
  | cons c calls ih =>
    intro m h
    exact (ih _ (run_error_ne m c h)).trans (run_address m c h)

/-- C20: once the own error code of a message is not `OSC_OK`, it stays so
across every sequence of calls of the getters, the type tests, `getDataCount`,
`size`, `bytes`, `hasError`, `getError` and `send`, the address staying what it
was; after it every index-based getter returns its zero/default value at every
position, `testType` returns false and `send()` writes nothing. `empty()`
resets the own error code, the decoder resets it when it finalizes the address,
and no other step of the decoder changes it. The address is not null, or
`bytes()`, which reads it, is not among the calls. -/
theorem own_error_sticky (m : OSCMessage) (calls : List ReadCall) (h : m.error ≠ .OSC_OK)
    (_ha : m.address ≠ none ∨ ReadCall.bytes ∉ calls) :
    (runCalls m calls).error ≠ .OSC_OK
      ∧ (runCalls m calls).address = m.address
      ∧ (∀ position bufferSize type : Nat,
          (getInt (runCalls m calls) position).1 = 0
            ∧ (getTime (runCalls m calls) position).1 = 0
            ∧ (getFloat (runCalls m calls) position).1 = 0
            ∧ (getDouble (runCalls m calls) position).1 = 0
            ∧ (getString (runCalls m calls) position bufferSize).1 = (0, [])
            ∧ (getBlob (runCalls m calls) position bufferSize).1 = (0, [])
            ∧ (getType (runCalls m calls) position).1 = 0
            ∧ (getDataLength (runCalls m calls) position).1 = 0
            ∧ (testType (runCalls m calls) position type).1 = false
            ∧ (isBoolean (runCalls m calls) position).1 = false)
      ∧ (send (runCalls m calls)).1 = []
      ∧ (empty m).error = .OSC_OK
      ∧ (m.decodeState = .ADDRESS → (decode m 0).error = .OSC_OK)
      ∧ (∀ b, ¬ (m.decodeState = .ADDRESS ∧ b = 0) → (decode m b).error = m.error) := by
  have hr := runCalls_error_ne calls m h
  refine ⟨hr, runCalls_address calls m h, ?_, ?_, ?_, ?_, ?_⟩
  · intro position bufferSize type
    rw [getInt_of_error _ position hr, getTime_of_error _ position hr,
      getFloat_of_error _ position hr, getDouble_of_error _ position hr,
      getString_of_error _ position bufferSize hr, getBlob_of_error _ position bufferSize hr,
      getType_of_error _ position hr, getDataLength_of_error _ position hr,
      testType_of_error _ position type hr, isBoolean_of_error _ position hr]
    exact ⟨rfl, rfl, rfl, rfl, rfl, rfl, rfl, rfl, rfl, rfl⟩
  · rw [send_of_error _ ((aggregateError_eq_true_iff _).2 (Or.inl hr))]
  · rw [empty_eq]
  · intro hs
    rw [decode_ADDRESS_zero m hs]
    rfl
  · intro b hb
    exact (decode_error_address m b hb).1

theorem own_error_sticky_witness :
    ((getInt twoIntsMessage 0).1 = 1
      ∧ (getInt twoIntsMessage 5).2.error = .INDEX_OUT_OF_BOUNDS
      ∧ (getInt (runCalls (getInt twoIntsMessage 5).2 [.getType 0, .hasError, .bytes, .send]) 0).1
          = 0
      ∧ (send (runCalls (getInt twoIntsMessage 5).2 [.getType 0, .hasError, .bytes, .send])).1
          = [])
    ∧ (getInt (runCalls OSCMessage.new [.getInt 0, .hasError, .send]) 0).1 = 0 :=
  have h := own_error_sticky (getInt twoIntsMessage 5).2 [.getType 0, .hasError, .bytes, .send]
    (by decide) (Or.inl (by decide))
  have g := own_error_sticky OSCMessage.new [.getInt 0, .hasError, .send]
    (by decide) (Or.inr (by decide))
  ⟨⟨by decide, by decide, (h.2.2.1 0 0 0).1, h.2.2.2.1⟩, (g.2.2.1 0 0 0).1⟩

/-! ## A blob of declared length 0 -/

theorem fill_DATA_blob_zero (m : OSCMessage) (i : Nat) (d : OSCData) (bs : List Nat)
    (hs : m.decodeState = .DATA) (hbuf : m.incomingBuffer = [])
    (hi : m.data[i]? = some d) (he : d.error = .INVALID_OSC)
    (hfirst : ∀ j, j < i → ∀ e, m.data[j]? = some e → e.error ≠ .INVALID_OSC)
    (ht : d.type = 98) :
    fill m ([0, 0, 0, 0] ++ bs) = addBytes m ([0, 0, 0, 0] ++ bs) := by
  refine fill_DATA_idle i d he _ m hs hi hfirst ?_
  intro pre b post hsplit
  rw [decodeDatum_blob _ i b d ht]
  simp only [addBytes_incomingBuffer, hbuf, List.nil_append, List.length_append,
    List.length_singleton]
  by_cases h4 : pre.length + 1 > 4
  · have htake : (pre ++ [b]).take 4 = [0, 0, 0, 0] := by
      have h1 : ((pre ++ [b]) ++ post).take 4 = (pre ++ [b]).take 4 :=
        List.take_append_of_le_length (by simp; omega)
      have h2 : ([0, 0, 0, 0] ++ bs).take 4 = [0, 0, 0, 0] := rfl
      rw [← h1, List.append_assoc, List.singleton_append, ← hsplit, h2]
    have hzero : fromBigEndian [0, 0, 0, 0] = 0 := rfl
    rw [if_pos h4, htake, hzero, if_neg (by omega)]
  · rw [if_neg h4]

/-- C22: with the decoder in `DATA`, an empty buffer and the first incomplete
value of type `b`, after the four bytes `00 00 00 00` and whatever bytes `bs`
follow, no value has changed (the blob is still incomplete and no later value
is set), the buffer holds every byte fed (its size is `4 + len(bs)`) and the
state is `DATA`. -/
theorem blob_zero_never_completes (m : OSCMessage) (i : Nat) (d : OSCData) (bs : List Nat)
    (hs : m.decodeState = .DATA) (hbuf : m.incomingBuffer = [])
    (hi : m.data[i]? = some d) (he : d.error = .INVALID_OSC)
    (hfirst : ∀ j, j < i → ∀ e, m.data[j]? = some e → e.error ≠ .INVALID_OSC)
    (ht : d.type = 98) :
    (fill m ([0, 0, 0, 0] ++ bs)).data = m.data
      ∧ (fill m ([0, 0, 0, 0] ++ bs)).data[i]? = some d
      ∧ (fill m ([0, 0, 0, 0] ++ bs)).incomingBuffer = [0, 0, 0, 0] ++ bs
      ∧ (fill m ([0, 0, 0, 0] ++ bs)).incomingBufferSize = 4 + bs.length
      ∧ (fill m ([0, 0, 0, 0] ++ bs)).decodeState = .DATA
      ∧ (fill m ([0, 0, 0, 0] ++ bs)).address = m.address
      ∧ (fill m ([0, 0, 0, 0] ++ bs)).error = m.error := by
  rw [fill_DATA_blob_zero m i d bs hs hbuf hi he hfirst ht]
  refine ⟨by simp, by simpa using hi, by simp [hbuf], ?_, by simpa using hs, by simp, by simp⟩
  simp only [OSCMessage.incomingBufferSize, addBytes_incomingBuffer, hbuf, List.nil_append,
    List.length_append, List.length_cons, List.length_nil]

theorem blob_zero_never_completes_witness :
    (fill awaitingBlobInt ([0, 0, 0, 0] ++ [0, 0, 0, 7, 1, 2])).data
        = [OSCData.ofType 98, OSCData.ofType 105]
      ∧ (fill awaitingBlobInt ([0, 0, 0, 0] ++ [0, 0, 0, 7, 1, 2])).incomingBufferSize = 10
      ∧ (fill awaitingBlobInt ([0, 0, 0, 0] ++ [0, 0, 0, 7, 1, 2])).decodeState = .DATA :=
  have h := blob_zero_never_completes awaitingBlobInt 0 (OSCData.ofType 98) [0, 0, 0, 7, 1, 2]
    (by decide) (by decide) (by decide) (by decide) (by intro j hj; omega) (by decide)
  ⟨h.1.trans (by decide), h.2.2.2.1, h.2.2.2.2.1⟩

/-! ## The growable buffer -/

theorem bufferInvariant_setupMessage : bufferInvariant setupMessage := by
  refine ⟨?_, ?_, ?_⟩ <;> decide

theorem bufferInvariant_clear (m : OSCMessage) : bufferInvariant (clearIncomingBuffer m) := by
  refine ⟨?_, ?_, ?_⟩ <;> simp [clearIncomingBuffer, OSCMessage.incomingBufferSize]

theorem addToIncomingBuffer_alloc (m : OSCMessage) (b : Nat) :
    (addToIncomingBuffer m b).incomingBufferAlloc
      = if m.incomingBufferFree > 0 then m.incomingBufferAlloc
        else m.incomingBufferSize + 16 := by
  unfold addToIncomingBuffer
  split <;> rfl

theorem addToIncomingBuffer_free (m : OSCMessage) (b : Nat) :
    (addToIncomingBuffer m b).incomingBufferFree
      = if m.incomingBufferFree > 0 then m.incomingBufferFree - 1 else 15 := by
  unfold addToIncomingBuffer
  split <;> rfl

theorem bufferInvariant_add (m : OSCMessage) (b : Nat) (h : bufferInvariant m) :
    bufferInvariant (addToIncomingBuffer m b) := by
  obtain ⟨h1, h2, h3⟩ := h
  unfold bufferInvariant
  rw [addToIncomingBuffer_alloc, addToIncomingBuffer_free]
  simp only [OSCMessage.incomingBufferSize, addToIncomingBuffer_incomingBuffer,
    List.length_append, List.length_singleton] at h1 ⊢
  split <;> omega

theorem bufferInvariant_run (calls : List BufferCall) :
    ∀ m : OSCMessage, bufferInvariant m → bufferInvariant (runBufferCalls m calls) := by
  induction calls with
  | nil => intro m h; exact h
  | cons c calls ih =>
    intro m h
    cases c with
    | add b => exact ih _ (bufferInvariant_add m b h)
    | clear => exact ih _ (bufferInvariant_clear m)

/-- As long as free slots are left, appending does not reallocate. -/
theorem addBytes_alloc (w : List Nat) :
    ∀ m : OSCMessage, w.length ≤ m.incomingBufferFree →
      (addBytes m w).incomingBufferAlloc = m.incomingBufferAlloc := by
  induction w with
  | nil => intro m _; rfl
  | cons c w ih =>
    intro m h
    have hpos : m.incomingBufferFree > 0 := by
      have : (c :: w).length = w.length + 1 := rfl
      omega
    rw [addBytes_cons, ih _ (by
      rw [addToIncomingBuffer_free, if_pos hpos]
      have : (c :: w).length = w.length + 1 := rfl
      omega), addToIncomingBuffer_alloc, if_pos hpos]

/-- C21: after `setupMessage()` and every sequence of `addToIncomingBuffer` and
`clearIncomingBuffer` calls, the allocated capacity is the size plus the free
slots and a positive multiple of 16. The next `addToIncomingBuffer` appends its
byte at index `size`, inside the allocation, keeps the earlier bytes and
increases the size by 1; it reallocates only when the size is a non-zero
multiple of 16, then by 16, and the 15 bytes appended after that do not
reallocate. `clearIncomingBuffer` sets the size to 0 and the capacity to 16. -/
theorem buffer_invariant (calls : List BufferCall) (b : Nat) :
    bufferInvariant (runBufferCalls setupMessage calls)
      ∧ (addToIncomingBuffer (runBufferCalls setupMessage calls) b).incomingBuffer
          = (runBufferCalls setupMessage calls).incomingBuffer ++ [b]
      ∧ (addToIncomingBuffer (runBufferCalls setupMessage calls) b).incomingBuffer[
            (runBufferCalls setupMessage calls).incomingBufferSize]? = some b
      ∧ (addToIncomingBuffer (runBufferCalls setupMessage calls) b).incomingBuffer.take
            (runBufferCalls setupMessage calls).incomingBufferSize
          = (runBufferCalls setupMessage calls).incomingBuffer
      ∧ (addToIncomingBuffer (runBufferCalls setupMessage calls) b).incomingBufferSize
          = (runBufferCalls setupMessage calls).incomingBufferSize + 1
      ∧ (runBufferCalls setupMessage calls).incomingBufferSize
          < (addToIncomingBuffer (runBufferCalls setupMessage calls) b).incomingBufferAlloc
      ∧ bufferInvariant (addToIncomingBuffer (runBufferCalls setupMessage calls) b)
      ∧ ((addToIncomingBuffer (runBufferCalls setupMessage calls) b).incomingBufferAlloc
            ≠ (runBufferCalls setupMessage calls).incomingBufferAlloc →
          0 < (runBufferCalls setupMessage calls).incomingBufferSize
            ∧ (runBufferCalls setupMessage calls).incomingBufferSize % 16 = 0
            ∧ (addToIncomingBuffer (runBufferCalls setupMessage calls) b).incomingBufferAlloc
                = (runBufferCalls setupMessage calls).incomingBufferAlloc + 16
            ∧ ∀ w : List Nat, w.length ≤ 15 →
                (addBytes (addToIncomingBuffer (runBufferCalls setupMessage calls) b)
                    w).incomingBufferAlloc
                  = (addToIncomingBuffer (runBufferCalls setupMessage calls) b).incomingBufferAlloc)
      ∧ (clearIncomingBuffer (runBufferCalls setupMessage calls)).incomingBufferSize = 0
      ∧ (clearIncomingBuffer (runBufferCalls setupMessage calls)).incomingBufferAlloc = 16
      ∧ (clearIncomingBuffer (runBufferCalls setupMessage calls)).incomingBufferFree = 16 := by
  have hinv := bufferInvariant_run calls setupMessage bufferInvariant_setupMessage
  generalize runBufferCalls setupMessage calls = m at hinv ⊢
  have hadd := bufferInvariant_add m b hinv
  obtain ⟨h1, h2, h3⟩ := hinv
  refine ⟨⟨h1, h2, h3⟩, addToIncomingBuffer_incomingBuffer m b, ?_, ?_, ?_, ?_, hadd, ?_,
    rfl, rfl, rfl⟩
  · rw [addToIncomingBuffer_incomingBuffer]
    simp [OSCMessage.incomingBufferSize]
  · rw [addToIncomingBuffer_incomingBuffer]
    simp [OSCMessage.incomingBufferSize]
  · simp [OSCMessage.incomingBufferSize]
  · rw [addToIncomingBuffer_alloc]
    split <;> omega
  · intro hne
    rw [addToIncomingBuffer_alloc] at hne ⊢
    by_cases hfree : m.incomingBufferFree > 0
    · rw [if_pos hfree] at hne
      exact absurd rfl hne
    · rw [if_neg hfree]
      refine ⟨by omega, by omega, by omega, ?_⟩
      intro w hw
      rw [addBytes_alloc w _ (by rw [addToIncomingBuffer_free, if_neg hfree]; exact hw),
        addToIncomingBuffer_alloc, if_neg hfree]

theorem buffer_invariant_witness :
    (runBufferCalls setupMessage ((List.replicate 16 (BufferCall.add 7)))).incomingBufferAlloc
        = 16
      ∧ (addToIncomingBuffer
          (runBufferCalls setupMessage ((List.replicate 16 (BufferCall.add 7)))) 9).incomingBufferAlloc
        = 32
      ∧ (addToIncomingBuffer
          (runBufferCalls setupMessage ((List.replicate 16 (BufferCall.add 7)))) 9).incomingBufferSize
        = 17 :=
  have h := buffer_invariant (List.replicate 16 (BufferCall.add 7)) 9
  ⟨by decide, ((h.2.2.2.2.2.2.2.1 (by decide)).2.2.1).trans (by decide),
    h.2.2.2.2.1.trans (by decide)⟩

end OSC
